import Mathlib

/-!
Verification development for the s222 multi-agent repository.

This file gives a shallow embedding, in Lean 4, of the repository's core:
the agent execution loop (`agents/base.py`), the pipeline engine
(`pipelines/engine.py`), the shared event-log / task model
(`core/models.py`, `core/events.py`) and the orchestrator entry point
(`agents/orchestrator.py`), together with theorems settling the frozen
claims C1 to C10 about that code.

Modelling conventions, stated once here:

* Python exceptions are modelled with `Except PyErr`; state mutated before a
  raise survives, so stateful operations return the updated state together
  with an `Except` result.
* The language-model network call, the bodies of the shared tools
  (web search, web fetch, memory, skill finder — external collaborators per
  spec section 6) and the skill-knowledge lookup are modelled by an
  environment record `Env`.  The model reply for the n-th network call is
  `Env.llm n`; any concrete behaviour of the interface is one such oracle.
* `asyncio` cooperative concurrency (`asyncio.gather` in the parallel and
  consensus strategies) is modelled by running the branch computations in
  declaration order and collecting each branch's `Except` outcome
  (`return_exceptions=True`).  The spec (section 5) leaves cross-branch event
  interleaving unspecified and no claim below depends on it.
* Wall-clock time (`time.monotonic()`) is modelled by a tick counter in
  `World` that advances by the environment-chosen latency of each model
  call; a Python duration `(t1 - t0) * 1000` becomes `(t1 - t0) * 1000`
  over ticks.  Latencies and token counts are natural numbers.
* JSON numbers are restricted to integers: every JSON literal any claim
  exercises is an integer, and no claim depends on float parsing.
* uuid-generated ids and datetime timestamps never influence control flow or
  any claim; `Event.id`, `Event.timestamp`, `SubTask.id` and the uuid part
  of fallback tool-call ids are therefore omitted from the model.
* `World.calls` is specification-only instrumentation (a history variable):
  it records each Agent Executor invocation `(role, task_input)` and is
  written exactly once, at the top of `BaseAgent.execute`; no modelled code
  reads it, so it cannot influence behaviour.
-/

namespace S222

/-- Single-quote character, written via its code point. -/
def sQuote : String := (Char.ofNat 39).toString

/-- Python exception value: the class name and the text `str(e)` renders. -/
structure PyErr where
  typeName : String
  msg : String
deriving DecidableEq

-- ── JSON values (model of Python objects produced by `json.loads`) ──

/-- JSON value as produced by Python's `json.loads`; numbers restricted to
integers (see file header). -/
inductive Json where
  | null : Json
  | bool (b : Bool) : Json
  | num (n : Int) : Json
  | str (s : String) : Json
  | arr (xs : List Json) : Json
  | obj (kvs : List (String × Json)) : Json
deriving Inhabited

/-- Python truthiness of a JSON-shaped value: `None`, `False`, `0`, `""`,
`[]` and `` \x7b\x7d `` are falsy. -/
def Json.truthy : Json → Bool
  | .null => false
  | .bool b => b
  | .num n => n != 0
  | .str s => s != ""
  | .arr xs => !xs.isEmpty
  | .obj kvs => !kvs.isEmpty

/-- Python `dict.get(key, default)` on an object (callers establish the
receiver is a `dict` before calling, mirroring `AttributeError` checks). -/
def Json.getD (j : Json) (key : String) (dflt : Json) : Json :=
  match j with
  | .obj kvs =>
    match kvs.lookup key with
    | some v => v
    | none => dflt
  | _ => dflt

/-- Python `dict.get(key)` with the implicit `None` default. -/
def Json.get (j : Json) (key : String) : Json := j.getD key .null

/-- Whether the value is a Python `dict` (a JSON object). -/
def Json.isObj : Json → Bool
  | .obj _ => true
  | _ => false

-- ── JSON parsing (model of `json.loads` on a string) ──

/-- JSON whitespace accepted between tokens by Python's `json` module. -/
def jsonWs (c : Char) : Bool :=
  c == ' ' || c == '\t' || c == '\n' || c == '\r'

/-- Drop leading JSON whitespace. -/
def skipWs : List Char → List Char
  | [] => []
  | c :: cs => if jsonWs c then skipWs cs else c :: cs

/-- Value of a hex digit, if the character is one. -/
def hexVal (c : Char) : Option Nat :=
  if '0' ≤ c && c ≤ '9' then some (c.toNat - 48)
  else if 'a' ≤ c && c ≤ 'f' then some (c.toNat - 87)
  else if 'A' ≤ c && c ≤ 'F' then some (c.toNat - 55)
  else none

/-- Decoding of a single-character JSON string escape. -/
def escChar (e : Char) : Option Char :=
  if e == '"' then some '"'
  else if e == '\\' then some '\\'
  else if e == '/' then some '/'
  else if e == 'b' then some (Char.ofNat 8)
  else if e == 'f' then some (Char.ofNat 12)
  else if e == 'n' then some '\n'
  else if e == 'r' then some '\r'
  else if e == 't' then some '\t'
  else none

/-- Parse the body of a JSON string literal (after the opening quote),
returning the decoded characters and the rest of the input.  Escapes are the
JSON ones; a `\uXXXX` escape decodes to the code point `XXXX` (surrogate-pair
recombination is not modelled; no claim uses it).  Fuel bounds recursion. -/
def parseStrBody : Nat → List Char → Option (List Char × List Char)
  | 0, _ => none
  | _ + 1, [] => none
  | fuel + 1, c :: cs =>
    if c == '"' then some ([], cs)
    else if c == '\\' then
      match cs with
      | [] => none
      | 'u' :: cs2 =>
        match cs2 with
        | h1 :: h2 :: h3 :: h4 :: cs3 =>
          match hexVal h1, hexVal h2, hexVal h3, hexVal h4 with
          | some a, some b, some c3, some d =>
            (parseStrBody fuel cs3).map
              (fun p => (Char.ofNat (((a * 16 + b) * 16 + c3) * 16 + d) :: p.1, p.2))
          | _, _, _, _ => none
        | _ => none
      | e :: cs2 =>
        match escChar e with
        | some ch => (parseStrBody fuel cs2).map (fun p => (ch :: p.1, p.2))
        | none => none
    else if c.toNat < 32 then none
    else (parseStrBody fuel cs).map (fun p => (c :: p.1, p.2))

/-- Parse a run of decimal digits. -/
def parseDigits : List Char → (List Char × List Char)
  | [] => ([], [])
  | c :: cs =>
    if '0' ≤ c && c ≤ '9' then
      let (ds, rest) := parseDigits cs
      (c :: ds, rest)
    else ([], c :: cs)

/-- Numeric value of a digit list. -/
def digitsToNat : List Char → Nat
  | [] => 0
  | ds => ds.foldl (fun acc c => acc * 10 + (c.toNat - 48)) 0

/-- Python `dict` construction from a pair sequence: each pair is set left to
right; a duplicate key keeps its first position but takes the later value. -/
def dictSet (kvs : List (String × Json)) (k : String) (v : Json) : List (String × Json) :=
  match kvs with
  | [] => [(k, v)]
  | (k2, v2) :: rest =>
    if k2 == k then (k2, v) :: rest else (k2, v2) :: dictSet rest k v

/-- Fold a raw key-value sequence into a Python `dict`. -/
def buildDict (pairs : List (String × Json)) : List (String × Json) :=
  pairs.foldl (fun acc p => dictSet acc p.1 p.2) []

mutual

/-- Parse one JSON value from the input (leading whitespace already
skipped by the caller), with a fuel bound for termination. -/
def parseVal : Nat → List Char → Option (Json × List Char)
  | 0, _ => none
  | _ + 1, [] => none
  | fuel + 1, c :: cs =>
    if c == '"' then
      match parseStrBody (cs.length + 1) cs with
      | some (chars, rest) => some (.str ⟨chars⟩, rest)
      | none => none
    else if c == '[' then
      match skipWs cs with
      | ']' :: rest => some (.arr [], rest)
      | cs2 => match parseArrItems fuel cs2 with
        | some (xs, rest) => some (.arr xs, rest)
        | none => none
    else if c == '{' then
      match skipWs cs with
      | '}' :: rest => some (.obj [], rest)
      | cs2 => match parseObjItems fuel cs2 with
        | some (kvs, rest) => some (.obj (buildDict kvs), rest)
        | none => none
    else if c == 't' then
      match cs with
      | 'r' :: 'u' :: 'e' :: rest => some (.bool true, rest)
      | _ => none
    else if c == 'f' then
      match cs with
      | 'a' :: 'l' :: 's' :: 'e' :: rest => some (.bool false, rest)
      | _ => none
    else if c == 'n' then
      match cs with
      | 'u' :: 'l' :: 'l' :: rest => some (.null, rest)
      | _ => none
    else if c == '-' then
      match parseDigits cs with
      | ([], _) => none
      | (ds, rest) => some (.num (-(digitsToNat ds : Int)), rest)
    else if '0' ≤ c && c ≤ '9' then
      match parseDigits (c :: cs) with
      | (ds, rest) => some (.num (digitsToNat ds : Int), rest)
    else none

/-- Parse the comma-separated items of a non-empty JSON array (input starts
at the first item, whitespace skipped). -/
def parseArrItems : Nat → List Char → Option (List Json × List Char)
  | 0, _ => none
  | fuel + 1, cs =>
    match parseVal fuel cs with
    | some (v, rest) =>
      match skipWs rest with
      | ',' :: rest2 =>
        match parseArrItems fuel (skipWs rest2) with
        | some (vs, rest3) => some (v :: vs, rest3)
        | none => none
      | ']' :: rest2 => some ([v], rest2)
      | _ => none
    | none => none

/-- Parse the comma-separated pairs of a non-empty JSON object (input starts
at the first key, whitespace skipped), as a raw pair sequence in source
order; `buildDict` applies Python `dict` duplicate-key semantics. -/
def parseObjItems : Nat → List Char → Option (List (String × Json) × List Char)
  | 0, _ => none
  | fuel + 1, cs =>
    match cs with
    | '"' :: cs1 =>
      match parseStrBody (cs1.length + 1) cs1 with
      | some (kchars, rest) =>
        match skipWs rest with
        | ':' :: rest2 =>
          match parseVal fuel (skipWs rest2) with
          | some (v, rest3) =>
            match skipWs rest3 with
            | ',' :: rest4 =>
              match parseObjItems fuel (skipWs rest4) with
              | some (kvs, rest5) => some (((⟨kchars⟩ : String), v) :: kvs, rest5)
              | none => none
            | '}' :: rest4 => some ([(⟨kchars⟩, v)], rest4)
            | _ => none
          | none => none
        | _ => none
      | none => none
    | _ => none

end

/-- Model of `json.loads` on a string: parse one value, reject trailing
garbage.  The error message of `json.JSONDecodeError` is abridged to a fixed
text; no claim inspects it. -/
def jsonLoads (s : String) : Except PyErr Json :=
  match parseVal (s.length + 1) (skipWs s.data) with
  | some (j, rest) =>
    if (skipWs rest).isEmpty then .ok j
    else .error ⟨"json.JSONDecodeError", "Extra data"⟩
  | none => .error ⟨"json.JSONDecodeError", "Expecting value"⟩

-- ── Python string primitives used by the embedded code ──

/-- Whitespace set of Python `str.strip` and of the regex class `\s`
(ASCII part; no claim involves non-ASCII whitespace). -/
def pyWsChar (c : Char) : Bool :=
  c == ' ' || c == '\t' || c == '\n' || c == '\r' ||
  c == Char.ofNat 11 || c == Char.ofNat 12

/-- Trim `\s` characters from both ends of a character list. -/
def trimWs (l : List Char) : List Char :=
  ((l.dropWhile pyWsChar).reverse.dropWhile pyWsChar).reverse

/-- Python `str.strip()`. -/
def pyStrip (s : String) : String := ⟨trimWs s.data⟩

/-- Python slicing `s[:n]` (by code points, as Python). -/
def strTake (s : String) (n : Nat) : String := ⟨s.data.take n⟩

/-- Python slicing `s[-n:]` on a list (last `n` elements). -/
def takeLast {α : Type} (l : List α) (n : Nat) : List α := l.drop (l.length - n)

/-- Python `str.upper()` (ASCII; no claim involves non-ASCII case). -/
def strUpper (s : String) : String := ⟨s.data.map Char.toUpper⟩

/-- Exact substring occurrence on character lists. -/
def hasSub (pat : List Char) : List Char → Bool
  | [] => pat.isEmpty
  | c :: cs => pat.isPrefixOf (c :: cs) || hasSub pat cs

/-- Python `pat in s` substring test. -/
def strContains (s pat : String) : Bool := hasSub pat.data s.data

/-- Case-insensitive prefix test on character lists. -/
def ciLeads : List Char → List Char → Bool
  | [], _ => true
  | _ :: _, [] => false
  | p :: ps, c :: cs => (p.toLower == c.toLower) && ciLeads ps cs

/-- Index of the first case-insensitive occurrence of `pat`. -/
def findCi (pat : List Char) : List Char → Option Nat
  | [] => if pat.isEmpty then some 0 else none
  | c :: cs =>
    if ciLeads pat (c :: cs) then some 0
    else (findCi pat cs).map (· + 1)

-- ── Regex models (the three compiled patterns of `agents/base.py`) ──

/-- Model of `pattern.sub("", text)` for a lazy delimited pattern
`open.*?close` with `DOTALL | IGNORECASE` (used for `_THINK_RE` and
`_TOOL_CALL_RE`): repeatedly delete from each leftmost open tag to the first
following close tag; an open tag with no following close tag matches
nothing. -/
def removeBlocks (openT closeT : List Char) : Nat → List Char → List Char
  | 0, s => s
  | fuel + 1, s =>
    match findCi openT s with
    | none => s
    | some i =>
      let afterOpen := s.drop (i + openT.length)
      match findCi closeT afterOpen with
      | none => s
      | some j =>
        s.take i ++ removeBlocks openT closeT fuel (afterOpen.drop (j + closeT.length))

/-- Model of `_TOOL_CALL_RE.findall`: the pattern
`<tool_call>\s*(.*?)\s*</tool_call>` with `DOTALL | IGNORECASE` captures, for
each leftmost-scanned non-overlapping match, the text between the tags with
`\s` trimmed from both ends. -/
def toolCallFindall : Nat → List Char → List String
  | 0, _ => []
  | fuel + 1, s =>
    match findCi "<tool_call>".data s with
    | none => []
    | some i =>
      let afterOpen := s.drop (i + 11)
      match findCi "</tool_call>".data afterOpen with
      | none => []
      | some j =>
        (⟨trimWs (afterOpen.take j)⟩ : String) ::
          toolCallFindall fuel (afterOpen.drop (j + 12))

/-- Model of `_THINK_RE.sub("", ...)` followed by `_THINK_OPEN_RE.sub`:
remove closed `<think>...</think>` blocks, then an unterminated `<think>...`
tail (both case-insensitive, dot matching newlines). -/
def stripThinkBlocks (s : List Char) : List Char :=
  let closed := removeBlocks "<think>".data "</think>".data (s.length + 1) s
  match findCi "<think>".data closed with
  | none => closed
  | some i => closed.take i

/-- Model of `_strip_thinking_tags` (`agents/base.py`): on falsy input return
it unchanged; otherwise remove closed then unclosed think blocks and strip. -/
def stripThinkingTags (text : String) : String :=
  if text == "" then text
  else ⟨trimWs (stripThinkBlocks text.data)⟩

/-- Model of `_TOOL_CALL_RE.sub("", text)`. -/
def toolCallSub (text : String) : String :=
  ⟨removeBlocks "<tool_call>".data "</tool_call>".data (text.data.length + 1) text.data⟩

-- ── Model of `json.dumps` and Python `str`/`repr` rendering ──

/-- Lowercase hex digit. -/
def hexDigit (n : Nat) : Char :=
  if n < 10 then Char.ofNat (48 + n) else Char.ofNat (87 + (n % 16 - 10))

/-- Escape one character as Python's `json.dumps` does with
`ensure_ascii=False`. -/
def jsonEscapeChar (c : Char) : List Char :=
  if c == '"' then ['\\', '"']
  else if c == '\\' then ['\\', '\\']
  else if c == '\n' then ['\\', 'n']
  else if c == '\t' then ['\\', 't']
  else if c == '\r' then ['\\', 'r']
  else if c == Char.ofNat 8 then ['\\', 'b']
  else if c == Char.ofNat 12 then ['\\', 'f']
  else if c.toNat < 32 then
    ['\\', 'u', '0', '0', hexDigit (c.toNat / 16), hexDigit (c.toNat % 16)]
  else [c]

/-- JSON string literal rendering for `json.dumps`. -/
def jsonQuote (s : String) : String :=
  "\"" ++ (⟨s.data.flatMap jsonEscapeChar⟩ : String) ++ "\""

/-- Model of `json.dumps(v, ensure_ascii=False)` with Python's default
separators `", "` and `": "`.  Fuel bounds nesting depth; the wrapper below
supplies a depth bound far above Python's own recursion limit behaviour for
any value a claim touches. -/
def jsonDumpsF : Nat → Json → String
  | 0, _ => ""
  | _ + 1, .null => "null"
  | _ + 1, .bool true => "true"
  | _ + 1, .bool false => "false"
  | _ + 1, .num n => toString n
  | _ + 1, .str s => jsonQuote s
  | fuel + 1, .arr xs =>
    "[" ++ String.intercalate ", " (xs.map (jsonDumpsF fuel)) ++ "]"
  | fuel + 1, .obj kvs =>
    "\x7b" ++
      String.intercalate ", "
        (kvs.map (fun p => jsonQuote p.1 ++ ": " ++ jsonDumpsF fuel p.2)) ++
    "\x7d"

/-- Model of `json.dumps(v, ensure_ascii=False)`. -/
def jsonDumps (v : Json) : String := jsonDumpsF 1000 v

/-- Escape one character inside a Python `repr` string literal.  Abridged:
the model always renders `repr` with single quotes (Python switches to double
quotes for strings that contain a single quote but no double quote); no claim
inspects such a rendering. -/
def pyReprChar (c : Char) : String :=
  if c == '\\' then "\\\\"
  else if c.toString == sQuote then "\\" ++ sQuote
  else if c == '\n' then "\\n"
  else if c == '\r' then "\\r"
  else if c == '\t' then "\\t"
  else if c.toNat < 32 then
    "\\x" ++ (hexDigit (c.toNat / 16)).toString ++ (hexDigit (c.toNat % 16)).toString
  else c.toString

/-- Python `repr` of a string (see `pyReprChar` for the abridgment). -/
def pyReprStr (s : String) : String :=
  sQuote ++ String.join (s.data.map pyReprChar) ++ sQuote

/-- Python `repr` of a JSON-shaped value. -/
def pyReprF : Nat → Json → String
  | 0, _ => ""
  | _ + 1, .null => "None"
  | _ + 1, .bool true => "True"
  | _ + 1, .bool false => "False"
  | _ + 1, .num n => toString n
  | _ + 1, .str s => pyReprStr s
  | fuel + 1, .arr xs =>
    "[" ++ String.intercalate ", " (xs.map (pyReprF fuel)) ++ "]"
  | fuel + 1, .obj kvs =>
    "\x7b" ++
      String.intercalate ", "
        (kvs.map (fun p => pyReprStr p.1 ++ ": " ++ pyReprF fuel p.2)) ++
    "\x7d"

/-- Python `str()` of a JSON-shaped value (`str` is identity on strings and
`repr` on containers and scalars, with `None`, `True`, `False` spelled the
Python way). -/
def pyStr : Json → String
  | .str s => s
  | v => pyReprF 1000 v

-- ── Enums (`core/models.py`) ──

/-- Agent identities (`AgentRole`). -/
inductive AgentRole where
  | orchestrator | thinker | speed | researcher | reasoner
deriving DecidableEq, BEq, Inhabited

/-- String value of an `AgentRole` member. -/
def AgentRole.value : AgentRole → String
  | .orchestrator => "orchestrator"
  | .thinker => "thinker"
  | .speed => "speed"
  | .researcher => "researcher"
  | .reasoner => "reasoner"

/-- Task and sub-task statuses (`TaskStatus`). -/
inductive TaskStatus where
  | pending | routing | running | reviewing | completed | failed
deriving DecidableEq, BEq, Inhabited

/-- String value of a `TaskStatus` member. -/
def TaskStatus.value : TaskStatus → String
  | .pending => "pending"
  | .routing => "routing"
  | .running => "running"
  | .reviewing => "reviewing"
  | .completed => "completed"
  | .failed => "failed"

/-- Pipeline strategies (`PipelineType`). -/
inductive PipelineType where
  | sequential | parallel | consensus | iterative | auto
deriving DecidableEq, BEq, Inhabited

/-- String value of a `PipelineType` member. -/
def PipelineType.value : PipelineType → String
  | .sequential => "sequential"
  | .parallel => "parallel"
  | .consensus => "consensus"
  | .iterative => "iterative"
  | .auto => "auto"

/-- Event kinds (`EventType`). -/
inductive EventType where
  | user_message | routing_decision | agent_start | agent_thinking
  | agent_response | tool_call | tool_result | pipeline_start
  | pipeline_step | pipeline_complete | synthesis | error
  | human_request | human_response
deriving DecidableEq, BEq, Inhabited

/-- String value of an `EventType` member. -/
def EventType.value : EventType → String
  | .user_message => "user_message"
  | .routing_decision => "routing_decision"
  | .agent_start => "agent_start"
  | .agent_thinking => "agent_thinking"
  | .agent_response => "agent_response"
  | .tool_call => "tool_call"
  | .tool_result => "tool_result"
  | .pipeline_start => "pipeline_start"
  | .pipeline_step => "pipeline_step"
  | .pipeline_complete => "pipeline_complete"
  | .synthesis => "synthesis"
  | .error => "error"
  | .human_request => "human_request"
  | .human_response => "human_response"

-- ── Data model records (`core/models.py`) ──

/-- One event in the thread (`Event`); uuid id and timestamp omitted, see
file header. -/
structure Event where
  event_type : EventType
  agent_role : Option AgentRole
  content : String
  metadata : List (String × Json)
deriving Inhabited

/-- Decomposed sub-task (`SubTask`); uuid id omitted, see file header. -/
structure SubTask where
  description : String
  assigned_agent : AgentRole
  priority : Int
  depends_on : List String
  skills : List String
  status : TaskStatus
  result : Option String
  token_usage : Nat
  latency_ms : Nat
deriving DecidableEq, Inhabited

/-- Top-level user task (`Task`); uuid id and datetimes omitted. -/
structure Task where
  user_input : String
  pipeline_type : PipelineType
  sub_tasks : List SubTask
  status : TaskStatus
  final_result : Option String
  total_tokens : Nat
  total_latency_ms : Nat
deriving DecidableEq, Inhabited

/-- Per-agent cumulative metrics (`AgentMetrics`); `last_active` holds the
model clock value of the latest update. -/
structure AgentMetrics where
  total_calls : Nat
  total_tokens : Nat
  total_latency_ms : Nat
  success_count : Nat
  error_count : Nat
  last_active : Option Nat
deriving DecidableEq, Inhabited

/-- Fresh `AgentMetrics()` with pydantic defaults. -/
def AgentMetrics.init : AgentMetrics :=
  ⟨0, 0, 0, 0, 0, none⟩

/-- Conversation state (`Thread`); uuid id and created-at omitted.  The
`agent_metrics` dict is an association list in Python dict insertion order. -/
structure Thread where
  events : List Event
  tasks : List Task
  agent_metrics : List (String × AgentMetrics)
deriving Inhabited

/-- Model of `Thread.add_event`: construct an `Event` and append it. -/
def Thread.add_event (t : Thread) (event_type : EventType) (content : String)
    (agent_role : Option AgentRole) (meta : List (String × Json)) : Thread :=
  { t with events := t.events ++ [⟨event_type, agent_role, content, meta⟩] }

/-- Update the value at the first occurrence of `key`, if present. -/
def assocUpdate {α : Type} (key : String) (f : α → α) :
    List (String × α) → List (String × α)
  | [] => []
  | (k, v) :: rest =>
    if k == key then (k, f v) :: rest else (k, v) :: assocUpdate key f rest

/-- Model of `Thread.update_metrics`: insert a fresh `AgentMetrics` for an
unseen role (at the end, as Python dict insertion), then bump the counters;
`now` is the model clock used for `last_active`. -/
def Thread.update_metrics (t : Thread) (role : AgentRole) (tokens : Nat)
    (latency_ms : Nat) (success : Bool) (now : Nat) : Thread :=
  let key := role.value
  let base :=
    if (t.agent_metrics.lookup key).isSome then t.agent_metrics
    else t.agent_metrics ++ [(key, AgentMetrics.init)]
  let upd : AgentMetrics → AgentMetrics := fun m =>
    { m with
      total_calls := m.total_calls + 1
      total_tokens := m.total_tokens + tokens
      total_latency_ms := m.total_latency_ms + latency_ms
      success_count := m.success_count + (if success then 1 else 0)
      error_count := m.error_count + (if success then 0 else 1)
      last_active := some now }
  { t with agent_metrics := assocUpdate key upd base }

-- ── Event serialization (`core/events.py`) ──

/-- Model of `serialize_event`: XML-style rendering of one event. -/
def serialize_event (e : Event) : String :=
  let tag :=
    match e.agent_role with
    | some r => r.value ++ "_" ++ e.event_type.value
    | none => e.event_type.value
  let skip : List String := ["tokens", "thinking_content"]
  let meta_lines :=
    if e.metadata.isEmpty then ""
    else
      let rendered := String.intercalate "\n"
        ((e.metadata.filter (fun p => !skip.contains p.1)).map
          (fun p => "  " ++ p.1 ++ ": " ++ pyStr p.2))
      if rendered == "" then "" else "\n" ++ rendered
  "<" ++ tag ++ ">\n  " ++ e.content ++ meta_lines ++ "\n</" ++ tag ++ ">"

/-- Model of `serialize_thread_for_llm`: last `max_events` events, optional
type filter, double-newline joined. -/
def serialize_thread_for_llm (t : Thread) (max_events : Nat)
    (include_types : Option (List EventType)) : String :=
  let evs0 := takeLast t.events max_events
  let evs :=
    match include_types with
    | some tys => evs0.filter (fun (e : Event) => tys.contains e.event_type)
    | none => evs0
  String.intercalate "\n\n" (evs.map serialize_event)

/-- Model of `build_orchestrator_context`. -/
def build_orchestrator_context (t : Thread) : String :=
  serialize_thread_for_llm t 40 none

-- ── Model invocation interface and environment (spec section 6) ──

/-- Value sitting in a tool-call `arguments` slot: the network interface
always delivers a JSON string; the textual fallback parser may leave a
non-string Python value there. -/
inductive ArgVal where
  | s (v : String)
  | nonStr (j : Json)
deriving Inhabited

/-- One structured tool call of a model reply (`call id`, `function.name`,
`function.arguments`); fallback-parsed calls carry the id stem
`"text_call_"` (uuid suffix abstracted, see file header). -/
structure ToolCallMsg where
  id : String
  name : Json
  arguments : ArgVal
deriving Inhabited

/-- Raw model reply fields consumed by `call_llm`. -/
structure ModelResponse where
  content : Option String
  toolCalls : List ToolCallMsg
  reasoningContent : Option String
  thinkingAttr : Option String
  finishReason : String
  usage : Option (Nat × Nat × Nat)
deriving Inhabited

/-- Outcome of one `chat.completions.create` network call, with the
environment-chosen elapsed monotonic ticks. -/
inductive LLMOutcome where
  | ok (resp : ModelResponse) (elapsed : Nat)
  | raise (e : PyErr) (elapsed : Nat)

/-- External collaborators (spec section 6): the model network call (indexed
by how many calls happened before), the shared tool bodies, and the
skill-knowledge lookup `get_skill_knowledge`. -/
structure Env where
  llm : Nat → LLMOutcome
  web_search : Json → Except PyErr String
  web_fetch : Json → Except PyErr String
  save_memory : Json → Except PyErr String
  recall_memory : Json → Except PyErr String
  find_skill : Json → Except PyErr String
  use_skill : Json → Except PyErr String
  getSkillKnowledge : String → Option String

/-- Process state threaded through the embedded code: the shared `Thread`,
the count of model network calls so far (the oracle index), the monotonic
clock, and the specification-only record of Agent Executor invocations. -/
structure World where
  thread : Thread
  llmCalls : Nat
  now : Nat
  calls : List (AgentRole × String)

/-- Append an event to the world's thread. -/
def World.addEvent (w : World) (ty : EventType) (content : String)
    (role : Option AgentRole) (meta : List (String × Json)) : World :=
  { w with thread := w.thread.add_event ty content role meta }

/-- Update the world's agent metrics. -/
def World.updMetrics (w : World) (role : AgentRole) (tokens : Nat)
    (latency_ms : Nat) (success : Bool) : World :=
  { w with thread := w.thread.update_metrics role tokens latency_ms success w.now }

/-- One entry of the running message list sent to the model. -/
inductive Message where
  | system (content : String)
  | user (content : String)
  | assistant (content : String)
  | assistantToolCall (id : String) (name : Json) (arguments : ArgVal)
  | tool (tool_call_id : String) (content : String)
deriving Inhabited

-- ── Fallback textual tool-call parsing (`_parse_text_tool_calls`) ──

/-- Python `a or b` over optional strings (`None` and `""` are falsy). -/
def pyOrStrOpt (a b : Option String) : Option String :=
  match a with
  | some s => if s == "" then b else some s
  | none => b

/-- Comparison of a Python value against a string literal. -/
def jsonEqStr (j : Json) (s : String) : Bool :=
  match j with
  | .str t => t == s
  | _ => false

/-- Processing of one extracted `<tool_call>` block body: `json.loads`, the
`name`/`function.name` and `arguments`/`parameters`/`function.arguments`
fallback chains with Python truthiness, skipping the block on
`json.JSONDecodeError` or `AttributeError` (a `.get` receiver that is not a
dict), and discarding it when no truthy function name is found. -/
def pickFnName (data : Json) : Option Json :=
  let nameVal := data.get "name"
  if nameVal.truthy then some nameVal
  else
    let b := data.getD "function" (.obj [])
    if b.isObj then some (b.get "name") else none

/-- The `fn_args = data.get("arguments") or data.get("parameters") or
data.get("function", \x7b\x7d).get("arguments", \x7b\x7d)` chain; `none` models the
`AttributeError` raised (and then caught) when the `function` value is not a
dict. -/
def pickFnArgs (data : Json) : Option Json :=
  let c := data.get "arguments"
  if c.truthy then some c
  else
    let d := data.get "parameters"
    if d.truthy then some d
    else
      let e := data.getD "function" (.obj [])
      if e.isObj then some (e.getD "arguments" (.obj [])) else none

/-- Value stored as `function.arguments` of a fallback call: a dict is
re-serialized with `json.dumps(..., ensure_ascii=False)`, a string is kept,
any other value is kept as the non-string Python object. -/
def argValOf : Json → ArgVal
  | .obj kvs => .s (jsonDumps (.obj kvs))
  | .str v => .s v
  | other => .nonStr other

/-- Processing of one extracted block body continued (see module doc):
`json.loads`, the name and argument chains, truthiness gate. -/
def parseOneToolBlock (m : String) : Option ToolCallMsg :=
  match jsonLoads m with
  | .error _ => none
  | .ok data =>
    if !data.isObj then none
    else
      match pickFnName data with
      | none => none
      | some fn_name =>
        match pickFnArgs data with
        | none => none
        | some fn_args =>
          if fn_name.truthy then some ⟨"text_call_", fn_name, argValOf fn_args⟩
          else none

/-- Model of `_parse_text_tool_calls` (`agents/base.py`): extract every
`<tool_call>...</tool_call>` block and process each independently; `None`
when the input is falsy, no block matches, or every block was skipped or
discarded. -/
def _parse_text_tool_calls (content : String) : Option (List ToolCallMsg) :=
  if content == "" then none
  else
    let blocks := toolCallFindall (content.data.length + 1) content.data
    if blocks.isEmpty then none
    else
      let parsed := blocks.filterMap parseOneToolBlock
      if parsed.isEmpty then none else some parsed

-- ── Model call wrapper (`BaseAgent.call_llm`) ──

/-- Processed result of one successful `call_llm`. -/
structure CallResult where
  content : String
  toolCalls : List ToolCallMsg
  finishReason : String
  tokensPrompt : Nat
  tokensCompletion : Nat
  tokensTotal : Nat
  latencyMs : Nat
  thinking : Option String
deriving Inhabited

/-- Pure processing of a successful model reply inside `BaseAgent.call_llm`
(request parameters — model id, token/temperature settings, message list and
tool schemas — are consumed by the external interface): extract side-channel
thinking, strip think markup from the visible text, prefer native structured
tool calls and otherwise, when tools were offered and the raw text is
non-empty, fall back to textual `<tool_call>` parsing, stripping recognized
blocks from the visible text. -/
def processResponse (tools : List String) (resp : ModelResponse) (elapsed : Nat) :
    CallResult :=
  let latency_ms := elapsed * 1000
  let thinking := pyOrStrOpt resp.reasoningContent resp.thinkingAttr
  let raw_content := resp.content.getD ""
  let clean0 := stripThinkingTags raw_content
  let withFallback :=
    if !resp.toolCalls.isEmpty then (resp.toolCalls, clean0)
    else if !tools.isEmpty && raw_content != "" then
      match _parse_text_tool_calls raw_content with
      | some tcs => (tcs, pyStrip (toolCallSub clean0))
      | none => ([], clean0)
    else ([], clean0)
  let usage := resp.usage.getD (0, 0, 0)
  { content := withFallback.2
    toolCalls := withFallback.1
    finishReason := resp.finishReason
    tokensPrompt := usage.1
    tokensCompletion := usage.2.1
    tokensTotal := usage.2.2
    latencyMs := latency_ms
    thinking := thinking }

/-- Model of `BaseAgent.call_llm`, stateful part: one network call whose
outcome the environment chooses; a successful reply goes through
`processResponse`. -/
def call_llm (env : Env) (tools : List String) (w : World) :
    World × Except PyErr CallResult :=
  match env.llm w.llmCalls with
  | .raise e elapsed =>
    ({ w with llmCalls := w.llmCalls + 1, now := w.now + elapsed }, .error e)
  | .ok resp elapsed =>
    ({ w with llmCalls := w.llmCalls + 1, now := w.now + elapsed },
      .ok (processResponse tools resp elapsed))

-- ── Agent configuration (`tools/registry.py`, `agents/*.py`) ──

/-- Declared tool schema lists per agent role (`AGENT_TOOLS` in
`tools/registry.py`), abstracted to the schemas' function names: the
embedded control flow only tests the list for emptiness and passes it to the
external interface. -/
def getTools : AgentRole → List String
  | .orchestrator =>
    ["save_memory", "recall_memory", "decompose_task", "direct_response",
     "synthesize_results", "find_skill", "use_skill"]
  | .researcher =>
    ["web_search", "web_fetch", "recall_memory", "save_memory", "find_skill", "use_skill"]
  | .thinker =>
    ["web_search", "web_fetch", "recall_memory", "save_memory", "find_skill", "use_skill"]
  | .speed =>
    ["web_search", "web_fetch", "recall_memory", "save_memory", "find_skill", "use_skill"]
  | .reasoner =>
    ["web_search", "recall_memory", "save_memory", "find_skill", "use_skill"]

/-- System prompts are static per-role strings (`system_prompt` in
`agents/*.py`); the modelled control flow never branches on their text and
no claim inspects it, so the model uses short placeholder constants. -/
def systemPrompt : AgentRole → String
  | .orchestrator => "orchestrator system prompt"
  | .thinker => "thinker system prompt"
  | .speed => "speed system prompt"
  | .researcher => "researcher system prompt"
  | .reasoner => "reasoner system prompt"

/-- Model of `build_context`: the orchestrator override
(`agents/orchestrator.py`) uses the full 40-event history with its own
wording; specialists use the 30-event default (`agents/base.py`). -/
def build_context (role : AgentRole) (t : Thread) (task_input : String) :
    List Message :=
  match role with
  | .orchestrator =>
    let history := build_orchestrator_context t
    [.system (systemPrompt .orchestrator)] ++
      (if pyStrip history != "" then
        [.user ("Thread history:\n" ++ history), .assistant "I have the full context."]
      else []) ++
      [.user task_input]
  | r =>
    let history := serialize_thread_for_llm t 30 none
    [.system (systemPrompt r)] ++
      (if pyStrip history != "" then
        [.user ("Context so far:\n" ++ history), .assistant "Understood. I have the context."]
      else []) ++
      [.user task_input]

-- ── Tool dispatch (`BaseAgent.handle_tool_call` and overrides) ──

/-- Model of `_handle_custom_tool`: the researcher override returns its own
unknown-tool text; every other role uses the base fallback. -/
def _handle_custom_tool (role : AgentRole) (fn_name : Json) : String :=
  match role with
  | .researcher => "Unknown tool: " ++ pyStr fn_name
  | _ => "Tool " ++ sQuote ++ pyStr fn_name ++ sQuote ++ " not implemented."

/-- Model of the shared-tool dispatch in `BaseAgent.handle_tool_call`: the
name-keyed chain of the six shared tools, whose bodies (argument extraction
and external invocation, spec section 6) are the environment's functions,
then the subclass extension point. -/
def sharedToolCall (env : Env) (role : AgentRole) (fn_name fn_args : Json) :
    Except PyErr Json :=
  if jsonEqStr fn_name "web_search" then (env.web_search fn_args).map .str
  else if jsonEqStr fn_name "web_fetch" then (env.web_fetch fn_args).map .str
  else if jsonEqStr fn_name "save_memory" then (env.save_memory fn_args).map .str
  else if jsonEqStr fn_name "recall_memory" then (env.recall_memory fn_args).map .str
  else if jsonEqStr fn_name "find_skill" then (env.find_skill fn_args).map .str
  else if jsonEqStr fn_name "use_skill" then (env.use_skill fn_args).map .str
  else .ok (.str (_handle_custom_tool role fn_name))

-- ── Orchestrator decomposition (`OrchestratorAgent._handle_decompose`) ──

/-- Python `PipelineType(value)` enum conversion. -/
def pipelineTypeOfJson (j : Json) : Except PyErr PipelineType :=
  if jsonEqStr j "sequential" then .ok .sequential
  else if jsonEqStr j "parallel" then .ok .parallel
  else if jsonEqStr j "consensus" then .ok .consensus
  else if jsonEqStr j "iterative" then .ok .iterative
  else if jsonEqStr j "auto" then .ok .auto
  else .error ⟨"ValueError", pyReprF 1000 j ++ " is not a valid PipelineType"⟩

/-- Python `AgentRole(value)` enum conversion. -/
def agentRoleOfJson (j : Json) : Except PyErr AgentRole :=
  if jsonEqStr j "orchestrator" then .ok .orchestrator
  else if jsonEqStr j "thinker" then .ok .thinker
  else if jsonEqStr j "speed" then .ok .speed
  else if jsonEqStr j "researcher" then .ok .researcher
  else if jsonEqStr j "reasoner" then .ok .reasoner
  else .error ⟨"ValueError", pyReprF 1000 j ++ " is not a valid AgentRole"⟩

/-- Python `for x in v` iteration over a JSON-shaped value. -/
def pyIterate (j : Json) : Except PyErr (List Json) :=
  match j with
  | .arr xs => .ok xs
  | .str v => .ok (v.data.map (fun c => .str c.toString))
  | .obj kvs => .ok (kvs.map (fun p => .str p.1))
  | _ => .error ⟨"TypeError", "object is not iterable"⟩

/-- Python subscript `v[key]` with a string key. -/
def pySubscript (j : Json) (key : String) : Except PyErr Json :=
  match j with
  | .obj kvs =>
    match kvs.lookup key with
    | some v => .ok v
    | none => .error ⟨"KeyError", pyReprStr key⟩
  | _ => .error ⟨"TypeError", "value is not subscriptable by a string"⟩

/-- Pydantic string-field validation (non-strings rejected; coercions a
claim never exercises are abridged to rejection). -/
def coerceStr (j : Json) : Except PyErr String :=
  match j with
  | .str v => .ok v
  | _ => .error ⟨"ValidationError", "Input should be a valid string"⟩

/-- Pydantic integer-field validation (see `coerceStr` on abridgment). -/
def coerceInt (j : Json) : Except PyErr Int :=
  match j with
  | .num n => .ok n
  | _ => .error ⟨"ValidationError", "Input should be a valid integer"⟩

/-- Pydantic list-of-strings validation. -/
def coerceStrList (j : Json) : Except PyErr (List String) :=
  match j with
  | .arr xs => xs.mapM coerceStr
  | _ => .error ⟨"ValidationError", "Input should be a valid list"⟩

/-- Model of the `SubTask(...)` construction inside `_handle_decompose` for
one entry of the decomposition's `sub_tasks` list. -/
def buildSubTask (st_data : Json) : Except PyErr SubTask := do
  let descJ ← pySubscript st_data "description"
  let agentJ ← pySubscript st_data "assigned_agent"
  let agent ← agentRoleOfJson agentJ
  let description ← coerceStr descJ
  let priority ← coerceInt (st_data.getD "priority" (.num 1))
  let depends_on ← coerceStrList (st_data.getD "depends_on" (.arr []))
  let skills ← coerceStrList (st_data.getD "skills" (.arr []))
  pure
    { description := description
      assigned_agent := agent
      priority := priority
      depends_on := depends_on
      skills := skills
      status := .pending
      result := none
      token_usage := 0
      latency_ms := 0 }

/-- Model of `OrchestratorAgent._handle_decompose`: build the sub-tasks,
append a new `Task` (whose `user_input` is the latest event's content) to
`thread.tasks`, emit a routing-decision event, and return the summary
text.  Conversion and validation failures propagate as exceptions. -/
def _handle_decompose (fn_args : Json) (w : World) : World × Except PyErr Json :=
  match pipelineTypeOfJson (fn_args.getD "pipeline_type" (.str "sequential")) with
  | .error e => (w, .error e)
  | .ok pipeline_type =>
    match pyIterate (fn_args.getD "sub_tasks" (.arr [])) with
    | .error e => (w, .error e)
    | .ok stDatas =>
      match stDatas.mapM buildSubTask with
      | .error e => (w, .error e)
      | .ok sub_tasks =>
        let user_input :=
          match w.thread.events.getLast? with
          | some ev => ev.content
          | none => ""
        let task : Task :=
          { user_input := user_input
            pipeline_type := pipeline_type
            sub_tasks := sub_tasks
            status := .pending
            final_result := none
            total_tokens := 0
            total_latency_ms := 0 }
        let w1 := { w with thread := { w.thread with tasks := w.thread.tasks ++ [task] } }
        let reasoning := fn_args.getD "reasoning" (.str "")
        let w2 := w1.addEvent .routing_decision
          ("Pipeline: " ++ pipeline_type.value ++ " | Sub-tasks: " ++
            toString sub_tasks.length ++ " | " ++ pyStr reasoning)
          (some .orchestrator) []
        let lines := ((List.range sub_tasks.length).zip sub_tasks).map
          (fun p => "  " ++ toString (p.1 + 1) ++ ". [" ++
            p.2.assigned_agent.value ++ "] " ++ p.2.description)
        let summary := String.intercalate "\n"
          (("Task decomposed → " ++ pipeline_type.value ++ " pipeline:") :: lines)
        (w2, .ok (.str summary))

/-- Model of `handle_tool_call`: the orchestrator override routes its three
decision tools then defers to the shared dispatch; every other role uses the
shared dispatch directly. -/
def handle_tool_call (env : Env) (role : AgentRole) (fn_name fn_args : Json)
    (w : World) : World × Except PyErr Json :=
  match role with
  | .orchestrator =>
    if jsonEqStr fn_name "decompose_task" then _handle_decompose fn_args w
    else if jsonEqStr fn_name "direct_response" then
      (w, .ok (fn_args.getD "response" (.str "")))
    else if jsonEqStr fn_name "synthesize_results" then
      (w, .ok (fn_args.getD "final_response" (.str "")))
    else (w, sharedToolCall env .orchestrator fn_name fn_args)
  | r => (w, sharedToolCall env r fn_name fn_args)

-- ── Agent execution loop (`BaseAgent.execute`) ──

/-- Step budget fixed in `BaseAgent.__init__`. -/
def maxSteps : Nat := 10

/-- Model of `json.loads(tc.function.arguments)`: a non-string arguments
value raises `TypeError`, a malformed string raises `json.JSONDecodeError`. -/
def jsonLoadsArg : ArgVal → Except PyErr Json
  | .s v => jsonLoads v
  | .nonStr _ => .error ⟨"TypeError", "the JSON object must be str, bytes or bytearray"⟩

/-- Model of the per-reply tool-call dispatch loop inside
`BaseAgent.execute`: for each call parse its argument string (uncaught on
failure), emit the tool-call event, dispatch, emit the tool-result event and
extend the message list with the assistant and tool turns. -/
def processToolCalls (env : Env) (role : AgentRole) :
    List ToolCallMsg → List Message → World → World × Except PyErr (List Message)
  | [], msgs, w => (w, .ok msgs)
  | tc :: rest, msgs, w =>
    match jsonLoadsArg tc.arguments with
    | .error e => (w, .error e)
    | .ok fn_args =>
      match handle_tool_call env role tc.name fn_args
          (w.addEvent .tool_call
            (pyStr tc.name ++ "(" ++ strTake (jsonDumps fn_args) 200 ++ ")") (some role) []) with
      | (w2, .error e) => (w2, .error e)
      | (w2, .ok tool_result) =>
        processToolCalls env role rest
          (msgs ++ [.assistantToolCall tc.id tc.name tc.arguments,
                    .tool tc.id (pyStr tool_result)])
          (w2.addEvent .tool_result (strTake (pyStr tool_result) 500) (some role) [])

/-- Model of the `for step in range(self.max_steps)` loop of
`BaseAgent.execute`; `fuel` counts the remaining iterations and `step` the
current index. -/
def executeLoop (env : Env) (role : AgentRole) (tools : List String) :
    Nat → Nat → List Message → World → World × Except PyErr String
  | 0, _, _, w =>
    (w.updMetrics role 0 0 false, .ok "[Warning] Max steps reached — partial result.")
  | fuel + 1, step, messages, w =>
    match call_llm env tools w with
    | (w1, .error e) =>
      let error_msg := "LLM call failed: " ++ e.typeName ++ ": " ++ e.msg
      let w2 := (w1.addEvent .error error_msg (some role) []).updMetrics role 0 0 false
      (w2, .ok ("[Error] " ++ error_msg))
    | (w1, .ok res) =>
      let w2 :=
        match res.thinking with
        | some th => if th != "" then w1.addEvent .agent_thinking (strTake th 500) (some role) [] else w1
        | none => w1
      if !res.toolCalls.isEmpty then
        match processToolCalls env role res.toolCalls messages w2 with
        | (w3, .error e) => (w3, .error e)
        | (w3, .ok msgs2) => executeLoop env role tools fuel (step + 1) msgs2 w3
      else
        let content := res.content
        let w3 := w2.addEvent .agent_response content (some role)
          [("tokens", .num (res.tokensTotal : Int)),
           ("latency_ms", .num (res.latencyMs : Int)),
           ("step", .num (step : Int))]
        let w4 := w3.updMetrics role res.tokensTotal res.latencyMs true
        (w4, .ok content)

/-- Model of `BaseAgent.execute`: record the invocation (specification-only
history), append the agent-start event, build the context and run the
bounded tool-call loop.  The only caught failure inside the loop is the
model network call; tool-argument parsing and tool handlers may raise
through this boundary. -/
def BaseAgent.execute (env : Env) (role : AgentRole) (task_input : String)
    (w : World) : World × Except PyErr String :=
  let w0 := { w with calls := w.calls ++ [(role, task_input)] }
  let w1 := w0.addEvent .agent_start
    ("Agent " ++ role.value ++ " starting: " ++ strTake task_input 100) (some role) []
  let messages := build_context role w1.thread task_input
  executeLoop env role (getTools role) maxSteps 0 messages w1

-- ── Pipeline engine (`pipelines/engine.py`) ──

/-- Update the element at index `i` of a list, if present (mutation of one
Python list element). -/
def listUpdate {α : Type} : List α → Nat → (α → α) → List α
  | [], _, _ => []
  | x :: xs, 0, f => f x :: xs
  | x :: xs, n + 1, f => x :: listUpdate xs n f

/-- Model of `PipelineEngine.get_agent` via the `_agents` dict built in
`PipelineEngine.__init__`: only the four specialists are present, so the
orchestrator identity raises `KeyError`. -/
def get_agent (role : AgentRole) : Except PyErr AgentRole :=
  match role with
  | .orchestrator =>
    .error ⟨"KeyError", "<AgentRole.ORCHESTRATOR: " ++ sQuote ++ "orchestrator" ++ sQuote ++ ">"⟩
  | r => .ok r

/-- Model of the skill-context construction inside
`PipelineEngine._run_subtask`. -/
def skillContext (env : Env) (skills : List String) : String :=
  if skills.isEmpty then ""
  else
    let skill_parts := skills.filterMap (fun skill_id =>
      (env.getSkillKnowledge skill_id).map (fun knowledge =>
        "<skill id=\"" ++ skill_id ++ "\">\n" ++ knowledge ++ "\n</skill>"))
    if skill_parts.isEmpty then ""
    else
      "\n\n--- INJECTED SKILLS ---\n" ++
      "Follow these specialized protocols for this task:\n\n" ++
      String.intercalate "\n\n" skill_parts ++
      "\n--- END SKILLS ---\n\n"

/-- Model of `PipelineEngine._run_subtask` on the sub-task at index `i`:
mark it running, resolve its agent, inject skills, emit the pipeline-step
event, run the Agent Executor, then record latency, completion and the
result.  An exception from agent resolution or the executor propagates with
the sub-task left running. -/
def _run_subtask (env : Env) (task : Task) (i : Nat) (context : String)
    (w : World) : Task × World × Except PyErr String :=
  match task.sub_tasks.get? i with
  | none => (task, w, .error ⟨"IndexError", "list index out of range"⟩)
  | some st =>
    let task1 :=
      { task with sub_tasks := listUpdate task.sub_tasks i (fun s => { s with status := .running }) }
    match get_agent st.assigned_agent with
    | .error e => (task1, w, .error e)
    | .ok agentRole =>
      let skill_context := skillContext env st.skills
      let w1 := w.addEvent .pipeline_step
        ("[" ++ st.assigned_agent.value ++ "] " ++ strTake st.description 100 ++
          (if !st.skills.isEmpty then " (skills: " ++ String.intercalate ", " st.skills ++ ")" else ""))
        (some st.assigned_agent) []
      let enriched_context := skill_context ++ context
      let t0 := w1.now
      match BaseAgent.execute env agentRole enriched_context w1 with
      | (w2, .error e) => (task1, w2, .error e)
      | (w2, .ok result) =>
        let task2 :=
          { task1 with sub_tasks := listUpdate task1.sub_tasks i (fun s =>
              { s with latency_ms := (w2.now - t0) * 1000
                       status := .completed
                       result := some result }) }
        (task2, w2, .ok result)

/-- Stable insertion of index `i` after all indices of key not above its
own. -/
def insertIdxBy (key : Nat → Int) (i : Nat) : List Nat → List Nat
  | [] => [i]
  | j :: js => if key j ≤ key i then j :: insertIdxBy key i js else i :: j :: js

/-- Stable sort of `[0, ..., n-1]` by key, modelling Python's stable
`sorted(..., key=lambda s: s.priority)` as index order. -/
def sortIndicesBy (key : Nat → Int) (n : Nat) : List Nat :=
  (List.range n).foldl (fun acc i => insertIdxBy key i acc) []

/-- Priority of the sub-task at an index. -/
def subPriority (task : Task) (i : Nat) : Int :=
  ((task.sub_tasks.get? i).map (fun s => s.priority)).getD 0

/-- Description of the sub-task at an index. -/
def subDescription (task : Task) (i : Nat) : String :=
  ((task.sub_tasks.get? i).map (fun s => s.description)).getD ""

/-- Agent label of the sub-task at an index. -/
def subAgentValue (task : Task) (i : Nat) : String :=
  ((task.sub_tasks.get? i).map (fun s => s.assigned_agent.value)).getD ""

/-- Sequential context for one sub-task from the original input, the
previous context and the sub-task description. -/
def seqEnriched (user_input context desc : String) : String :=
  "Original request: " ++ user_input ++ "\n\nPrevious context:\n" ++ context ++
    "\n\nYour task: " ++ desc

/-- Loop body of `PipelineEngine._sequential` over the priority-sorted index
order, threading the previous result as context. -/
def seqGo (env : Env) (user_input : String) :
    List Nat → String → List String → Task → World →
    Task × World × Except PyErr (List String)
  | [], _, results, task, w => (task, w, .ok results)
  | i :: rest, context, results, task, w =>
    let enriched := seqEnriched user_input context (subDescription task i)
    match _run_subtask env task i enriched w with
    | (task1, w1, .error e) => (task1, w1, .error e)
    | (task1, w1, .ok result) =>
      seqGo env user_input rest result
        (results ++ ["[" ++ subAgentValue task1 i ++ "] " ++ result]) task1 w1

/-- Model of `PipelineEngine._sequential`: run the sub-tasks in ascending
priority order, each receiving the previous result as context (the first
receives the user input), and join the labeled results. -/
def _sequential (env : Env) (task : Task) (w : World) :
    Task × World × Except PyErr String :=
  let order := sortIndicesBy (subPriority task) task.sub_tasks.length
  match seqGo env task.user_input order task.user_input [] task w with
  | (task1, w1, .error e) => (task1, w1, .error e)
  | (task1, w1, .ok results) =>
    (task1, w1, .ok (String.intercalate "\n\n---\n\n" results))

/-- Parallel context for one sub-task. -/
def parEnriched (user_input desc : String) : String :=
  "Original request: " ++ user_input ++ "\n\nYour task: " ++ desc

/-- Model of `asyncio.gather(*coros, return_exceptions=True)` over the
parallel strategy's branch list: each branch runs `_run_subtask` and its
`Except` outcome is collected (see the file header on serialization of
concurrency). -/
def gatherSubtasks (env : Env) (user_input : String) :
    List Nat → Task → World → Task × World × List (Except PyErr String)
  | [], task, w => (task, w, [])
  | i :: rest, task, w =>
    let enriched := parEnriched user_input (subDescription task i)
    let (task1, w1, r) := _run_subtask env task i enriched w
    let (task2, w2, rs) := gatherSubtasks env user_input rest task1 w1
    (task2, w2, r :: rs)

/-- Merge step of `_parallel`: walk `zip(task.sub_tasks, results)` building
the labeled parts and marking failed branches. -/
def parallelMerge (task : Task) : List (Nat × Except PyErr String) → Task × List String
  | [] => (task, [])
  | (i, r) :: rest =>
    match r with
    | .error e =>
      let part := "[" ++ subAgentValue task i ++ "] Error: " ++ e.msg
      let task1 :=
        { task with sub_tasks := listUpdate task.sub_tasks i (fun s => { s with status := .failed }) }
      let (task2, parts) := parallelMerge task1 rest
      (task2, part :: parts)
    | .ok result =>
      let part := "[" ++ subAgentValue task i ++ "] " ++ result
      let (task2, parts) := parallelMerge task rest
      (task2, part :: parts)

/-- Model of `PipelineEngine._parallel`: all branches run (each from the
user input only), every branch failure is contained and rendered as a
labeled error entry, and the labeled entries are joined in declaration
order. -/
def _parallel (env : Env) (task : Task) (w : World) :
    Task × World × Except PyErr String :=
  let (task1, w1, results) := gatherSubtasks env task.user_input
    (List.range task.sub_tasks.length) task w
  let (task2, parts) := parallelMerge task1 ((List.range task.sub_tasks.length).zip results)
  (task2, w1, .ok (String.intercalate "\n\n---\n\n" parts))

/-- The fixed consensus identities, in order (`agents_to_use`). -/
def consensusAgents : List AgentRole :=
  [.thinker, .speed, .researcher, .reasoner]

/-- Gather model for the consensus strategy: each fixed identity's executor
runs on the question and its `Except` outcome is collected. -/
def gatherConsensus (env : Env) (question : String) :
    List AgentRole → World → World × List (Except PyErr String)
  | [], w => (w, [])
  | r :: rest, w =>
    let (w1, res) := BaseAgent.execute env r question w
    let (w2, ress) := gatherConsensus env question rest w1
    (w2, res :: ress)

/-- Model of `PipelineEngine._consensus`: the four fixed identities each
answer the task's original user input; the result is a header line plus each
identity's labeled entry (result or contained error) in the fixed order. -/
def _consensus (env : Env) (task : Task) (w : World) :
    Task × World × Except PyErr String :=
  let question := task.user_input
  let (w1, results) := gatherConsensus env question consensusAgents w
  let parts :=
    "CONSENSUS RESULTS — Multiple agents answered the same question:\n" ::
      (consensusAgents.zip results).map (fun p =>
        match p.2 with
        | .error e => "[" ++ p.1.value ++ "] Error: " ++ e.msg
        | .ok r => "[" ++ p.1.value ++ "] " ++ r)
  (task, w1, .ok (String.intercalate "\n\n---\n\n" parts))

/-- Review prompt of round `round_num` (0-based) in `_iterative`. -/
def reviewPrompt (user_input draft : String) (round_num : Nat) : String :=
  "Original request: " ++ user_input ++ "\n\nDraft (round " ++
    toString (round_num + 1) ++ "):\n" ++ draft ++
    "\n\nReview this draft. If it" ++ sQuote ++ "s good, say " ++ sQuote ++
    "APPROVED" ++ sQuote ++ ". Otherwise, provide specific feedback for improvement."

/-- Refine prompt in `_iterative`. -/
def refinePrompt (user_input draft review : String) : String :=
  "Original request: " ++ user_input ++ "\n\nYour previous draft:\n" ++ draft ++
    "\n\nReviewer feedback:\n" ++ review ++
    "\n\nImprove your draft based on this feedback."

/-- Round loop of `_iterative`: review the draft; stop at a review
containing the case-insensitive token APPROVED; otherwise refine and
continue.  Returns the final draft and the last review (`none` when no round
ran, matching Python's unbound `review`). -/
def iterGo (env : Env) (user_input : String) (producer reviewer : AgentRole) :
    Nat → Nat → String → Option String → World →
    World × Except PyErr (String × Option String)
  | 0, _, draft, review, w => (w, .ok (draft, review))
  | fuel + 1, round_num, draft, _, w =>
    match BaseAgent.execute env reviewer (reviewPrompt user_input draft round_num) w with
    | (w1, .error e) => (w1, .error e)
    | (w1, .ok review) =>
      if strContains (strUpper review) "APPROVED" then (w1, .ok (draft, some review))
      else
        match BaseAgent.execute env producer (refinePrompt user_input draft review) w1 with
        | (w2, .error e) => (w2, .error e)
        | (w2, .ok draft2) => iterGo env user_input producer reviewer fuel (round_num + 1) draft2 (some review) w2

/-- Model of `PipelineEngine._iterative`: fall back to the sequential
strategy below two sub-tasks; otherwise the first sub-task's agent drafts,
the second's reviews for up to `max_rounds` rounds, and the two sub-tasks'
result fields receive the final draft and the last review. -/
def _iterative (env : Env) (task : Task) (w : World) (max_rounds : Nat) :
    Task × World × Except PyErr String :=
  if task.sub_tasks.length < 2 then _sequential env task w
  else
    match get_agent ((task.sub_tasks.get? 0).map (fun s => s.assigned_agent) |>.getD .thinker),
          get_agent ((task.sub_tasks.get? 1).map (fun s => s.assigned_agent) |>.getD .thinker) with
    | .error e, _ => (task, w, .error e)
    | _, .error e => (task, w, .error e)
    | .ok producer, .ok reviewer =>
      match BaseAgent.execute env producer
        ("Original request: " ++ task.user_input ++ "\n\nYour task: " ++ subDescription task 0) w with
      | (w1, .error e) => (task, w1, .error e)
      | (w1, .ok draft0) =>
        match iterGo env task.user_input producer reviewer max_rounds 0 draft0 none w1 with
        | (w2, .error e) => (task, w2, .error e)
        | (w2, .ok (draft, some review)) =>
          let subs1 := listUpdate task.sub_tasks 0 (fun s => { s with result := some draft })
          let subs2 := listUpdate subs1 1 (fun s => { s with result := some review })
          let task1 := { task with sub_tasks := subs2 }
          (task1, w2, .ok draft)
        | (w2, .ok (_, none)) =>
          (task, w2, .error ⟨"UnboundLocalError", "cannot access local variable " ++ sQuote ++ "review" ++ sQuote⟩)

/-- Strategy selection of `PipelineEngine.execute` (the `match` statement);
`auto` or anything else falls back to sequential; `_iterative` runs with its
default of 3 rounds. -/
def runStrategy (env : Env) (task : Task) (w : World) :
    Task × World × Except PyErr String :=
  match task.pipeline_type with
  | .sequential => _sequential env task w
  | .parallel => _parallel env task w
  | .consensus => _consensus env task w
  | .iterative => _iterative env task w 3
  | .auto => _sequential env task w

/-- Model of `PipelineEngine.execute`: mark the task running, append the
pipeline-start event, run the strategy; on success mark completed and record
the duration; on an uncaught strategy exception mark failed, render the
exception text as the result and emit an error event; always append the
pipeline-complete event carrying final status and the task's
`total_latency_ms`.  The `task.status = RUNNING` assignment is factored as
`taskRunning` and the start event as `pipelineStartWorld` so that theorem
statements can name the strategy entry state. -/
def taskRunning (task : Task) : Task := { task with status := .running }

/-- The pipeline-start event append at the top of `PipelineEngine.execute`. -/
def pipelineStartWorld (task : Task) (w : World) : World :=
  w.addEvent .pipeline_start
    ("Starting " ++ task.pipeline_type.value ++ " pipeline with " ++
      toString task.sub_tasks.length ++ " sub-tasks") none []

/-- Body of `PipelineEngine.execute` continued from the factored pieces
above. -/
def PipelineEngine.execute (env : Env) (task : Task) (w : World) :
    Task × World × String :=
  let task0 := taskRunning task
  let w0 := pipelineStartWorld task w
  let t0 := w0.now
  match runStrategy env task0 w0 with
  | (task1, w1, .ok result) =>
    let task2 := { task1 with status := .completed, total_latency_ms := (w1.now - t0) * 1000 }
    let w2 := w1.addEvent .pipeline_complete
      ("Pipeline " ++ task2.pipeline_type.value ++ " completed: " ++ task2.status.value)
      none [("latency_ms", .num (task2.total_latency_ms : Int))]
    (task2, w2, result)
  | (task1, w1, .error e) =>
    let task2 := { task1 with status := .failed }
    let result := "[Pipeline Error] " ++ e.msg
    let w2 := w1.addEvent .error result none []
    let w3 := w2.addEvent .pipeline_complete
      ("Pipeline " ++ task2.pipeline_type.value ++ " completed: " ++ task2.status.value)
      none [("latency_ms", .num (task2.total_latency_ms : Int))]
    (task2, w3, result)

-- ── Orchestrator entry point (`OrchestratorAgent.route_and_execute`) ──

/-- Model of `route_and_execute`: append the user message, run the
orchestrator's executor; return its decision directly when a recent
tool-call event mentions `direct_response`; otherwise, when a task with
sub-tasks exists, run the pipeline on the latest task, synthesize with a
second orchestrator turn, store the final result on that task and return
it.  The in-place mutation of `current_task` is modelled by writing the
updated record back at its index (nothing reads it in between). -/
def OrchestratorAgent.route_and_execute (env : Env) (user_input : String)
    (w : World) : World × Except PyErr String :=
  let w0 := w.addEvent .user_message user_input none []
  match BaseAgent.execute env .orchestrator user_input w0 with
  | (w1, .error e) => (w1, .error e)
  | (w1, .ok decision) =>
    let last_events := takeLast w1.thread.events 5
    if last_events.reverse.any (fun ev =>
        ev.event_type == .tool_call && strContains ev.content "direct_response") then
      (w1, .ok decision)
    else
      match w1.thread.tasks.getLast? with
      | none => (w1, .ok decision)
      | some current_task =>
        if current_task.sub_tasks.isEmpty then (w1, .ok decision)
        else
          let idx := w1.thread.tasks.length - 1
          let (task1, w2, result) := PipelineEngine.execute env current_task w1
          let w3 := { w2 with thread :=
            { w2.thread with tasks := listUpdate w2.thread.tasks idx (fun _ => task1) } }
          let synth_input :=
            "The specialists have completed their work. Here are the results:\n\n" ++
              result ++ "\n\nOriginal user request: " ++ user_input ++
              "\n\nSynthesize a clear, comprehensive final response."
          match BaseAgent.execute env .orchestrator synth_input w3 with
          | (w4, .error e) => (w4, .error e)
          | (w4, .ok finalR) =>
            let tasks5 := listUpdate w4.thread.tasks idx (fun _ => { task1 with final_result := some finalR })
            let w5 := { w4 with thread := { w4.thread with tasks := tasks5 } }
            (w5, .ok finalR)

-- ── Proof toolkit: state-evolution lemmas ──

/-- The event log of `w2` extends that of `w1` by a suffix: nothing already
logged is mutated, deleted or reordered. -/
def EventsExtend (w1 w2 : World) : Prop :=
  ∃ t, w2.thread.events = w1.thread.events ++ t

lemma eventsExtend_refl (w : World) : EventsExtend w w := ⟨[], by simp⟩

lemma eventsExtend_of_eq {w1 w2 : World}
    (h : w2.thread.events = w1.thread.events) : EventsExtend w1 w2 :=
  ⟨[], by simp [h]⟩

lemma eventsExtend_trans {w1 w2 w3 : World}
    (h1 : EventsExtend w1 w2) (h2 : EventsExtend w2 w3) : EventsExtend w1 w3 := by
  obtain ⟨a, ha⟩ := h1
  obtain ⟨b, hb⟩ := h2
  exact ⟨a ++ b, by rw [hb, ha, List.append_assoc]⟩

lemma addEvent_events (w : World) (ty : EventType) (c : String)
    (r : Option AgentRole) (m : List (String × Json)) :
    (w.addEvent ty c r m).thread.events = w.thread.events ++ [⟨ty, r, c, m⟩] := rfl

lemma eventsExtend_addEvent (w : World) (ty : EventType) (c : String)
    (r : Option AgentRole) (m : List (String × Json)) :
    EventsExtend w (w.addEvent ty c r m) := ⟨[⟨ty, r, c, m⟩], rfl⟩

lemma updMetrics_events (w : World) (role : AgentRole) (tok lat : Nat) (b : Bool) :
    (w.updMetrics role tok lat b).thread.events = w.thread.events := rfl

lemma updMetrics_calls (w : World) (role : AgentRole) (tok lat : Nat) (b : Bool) :
    (w.updMetrics role tok lat b).calls = w.calls := rfl

lemma addEvent_calls (w : World) (ty : EventType) (c : String)
    (r : Option AgentRole) (m : List (String × Json)) :
    (w.addEvent ty c r m).calls = w.calls := rfl

lemma addEvent_llmCalls (w : World) (ty : EventType) (c : String)
    (r : Option AgentRole) (m : List (String × Json)) :
    (w.addEvent ty c r m).llmCalls = w.llmCalls := rfl

lemma updMetrics_llmCalls (w : World) (role : AgentRole) (tok lat : Nat) (b : Bool) :
    (w.updMetrics role tok lat b).llmCalls = w.llmCalls := rfl

lemma call_llm_events (env : Env) (tools : List String) (w : World) :
    (call_llm env tools w).1.thread.events = w.thread.events := by
  cases h : env.llm w.llmCalls <;> simp [call_llm, h]

lemma call_llm_calls (env : Env) (tools : List String) (w : World) :
    (call_llm env tools w).1.calls = w.calls := by
  cases h : env.llm w.llmCalls <;> simp [call_llm, h]

lemma call_llm_llmCalls (env : Env) (tools : List String) (w : World) :
    (call_llm env tools w).1.llmCalls = w.llmCalls + 1 := by
  cases h : env.llm w.llmCalls <;> simp [call_llm, h]

lemma decompose_events (fn_args : Json) (w : World) :
    EventsExtend w (_handle_decompose fn_args w).1 := by
  unfold _handle_decompose
  split
  · exact eventsExtend_refl w
  · split
    · exact eventsExtend_refl w
    · split
      · exact eventsExtend_refl w
      · exact ⟨_, rfl⟩

lemma decompose_calls (fn_args : Json) (w : World) :
    (_handle_decompose fn_args w).1.calls = w.calls := by
  unfold _handle_decompose
  split
  · rfl
  · split
    · rfl
    · split
      · rfl
      · rfl

lemma decompose_llmCalls (fn_args : Json) (w : World) :
    (_handle_decompose fn_args w).1.llmCalls = w.llmCalls := by
  unfold _handle_decompose
  split
  · rfl
  · split
    · rfl
    · split
      · rfl
      · rfl

lemma handle_tool_call_events (env : Env) (role : AgentRole) (n a : Json) (w : World) :
    EventsExtend w (handle_tool_call env role n a w).1 := by
  cases role <;> simp only [handle_tool_call]
  case orchestrator =>
    split
    · exact decompose_events a w
    · split
      · exact eventsExtend_refl w
      · split
        · exact eventsExtend_refl w
        · exact eventsExtend_refl w
  all_goals exact eventsExtend_refl w

lemma handle_tool_call_calls (env : Env) (role : AgentRole) (n a : Json) (w : World) :
    (handle_tool_call env role n a w).1.calls = w.calls := by
  cases role <;> simp only [handle_tool_call]
  case orchestrator =>
    split
    · exact decompose_calls a w
    · split <;> try rfl
      split <;> rfl

lemma handle_tool_call_llmCalls (env : Env) (role : AgentRole) (n a : Json) (w : World) :
    (handle_tool_call env role n a w).1.llmCalls = w.llmCalls := by
  cases role <;> simp only [handle_tool_call]
  case orchestrator =>
    split
    · exact decompose_llmCalls a w
    · split <;> try rfl
      split <;> rfl

lemma processToolCalls_events (env : Env) (role : AgentRole)
    (tcs : List ToolCallMsg) (msgs : List Message) (w : World) :
    EventsExtend w (processToolCalls env role tcs msgs w).1 := by
  induction tcs generalizing msgs w with
  | nil => exact eventsExtend_refl w
  | cons tc rest ih =>
    simp only [processToolCalls]
    split
    · exact eventsExtend_refl w
    · rename_i args hargs
      rcases hcall : handle_tool_call env role tc.name args
          (w.addEvent .tool_call (pyStr tc.name ++ "(" ++ strTake (jsonDumps args) 200 ++ ")") (some role) []) with ⟨w2, tr⟩
      have h1 : EventsExtend w
          (w.addEvent .tool_call (pyStr tc.name ++ "(" ++ strTake (jsonDumps args) 200 ++ ")") (some role) []) :=
        eventsExtend_addEvent ..
      have h2 : EventsExtend
          (w.addEvent .tool_call (pyStr tc.name ++ "(" ++ strTake (jsonDumps args) 200 ++ ")") (some role) []) w2 := by
        have := handle_tool_call_events env role tc.name args
          (w.addEvent .tool_call (pyStr tc.name ++ "(" ++ strTake (jsonDumps args) 200 ++ ")") (some role) [])
        rwa [hcall] at this
      cases tr with
      | error e => exact eventsExtend_trans h1 h2
      | ok v =>
        exact eventsExtend_trans h1 (eventsExtend_trans h2
          (eventsExtend_trans (eventsExtend_addEvent ..) (ih ..)))

lemma processToolCalls_calls (env : Env) (role : AgentRole)
    (tcs : List ToolCallMsg) (msgs : List Message) (w : World) :
    (processToolCalls env role tcs msgs w).1.calls = w.calls := by
  induction tcs generalizing msgs w with
  | nil => rfl
  | cons tc rest ih =>
    simp only [processToolCalls]
    split
    · rfl
    · rename_i args hargs
      rcases hcall : handle_tool_call env role tc.name args
          (w.addEvent .tool_call (pyStr tc.name ++ "(" ++ strTake (jsonDumps args) 200 ++ ")") (some role) []) with ⟨w2, tr⟩
      have h2 : w2.calls = w.calls := by
        have := handle_tool_call_calls env role tc.name args
          (w.addEvent .tool_call (pyStr tc.name ++ "(" ++ strTake (jsonDumps args) 200 ++ ")") (some role) [])
        rw [hcall] at this
        simpa using this
      cases tr with
      | error e => exact h2
      | ok v => rw [ih, addEvent_calls, h2]

lemma processToolCalls_llmCalls (env : Env) (role : AgentRole)
    (tcs : List ToolCallMsg) (msgs : List Message) (w : World) :
    (processToolCalls env role tcs msgs w).1.llmCalls = w.llmCalls := by
  induction tcs generalizing msgs w with
  | nil => rfl
  | cons tc rest ih =>
    simp only [processToolCalls]
    split
    · rfl
    · rename_i args hargs
      rcases hcall : handle_tool_call env role tc.name args
          (w.addEvent .tool_call (pyStr tc.name ++ "(" ++ strTake (jsonDumps args) 200 ++ ")") (some role) []) with ⟨w2, tr⟩
      have h2 : w2.llmCalls = w.llmCalls := by
        have := handle_tool_call_llmCalls env role tc.name args
          (w.addEvent .tool_call (pyStr tc.name ++ "(" ++ strTake (jsonDumps args) 200 ++ ")") (some role) [])
        rw [hcall] at this
        simpa using this
      cases tr with
      | error e => exact h2
      | ok v => rw [ih, addEvent_llmCalls, h2]

lemma executeLoop_events (env : Env) (role : AgentRole) (tools : List String) :
    ∀ (fuel step : Nat) (msgs : List Message) (w : World),
    EventsExtend w (executeLoop env role tools fuel step msgs w).1 := by
  intro fuel
  induction fuel with
  | zero =>
    intro step msgs w
    exact eventsExtend_of_eq (updMetrics_events ..)
  | succ fuel ih =>
    intro step msgs w
    simp only [executeLoop]
    rcases hc : call_llm env tools w with ⟨w1, r⟩
    have h1 : EventsExtend w w1 := by
      have := call_llm_events env tools w
      rw [hc] at this
      exact eventsExtend_of_eq this
    cases r with
    | error e =>
      dsimp only
      exact eventsExtend_trans h1 (eventsExtend_trans (eventsExtend_addEvent ..)
        (eventsExtend_of_eq (updMetrics_events ..)))
    | ok res =>
      dsimp only
      refine eventsExtend_trans h1 ?_
      generalize hwt : (match res.thinking with
        | some th => if th != "" then w1.addEvent .agent_thinking (strTake th 500) (some role) [] else w1
        | none => w1) = wt
      have h2 : EventsExtend w1 wt := by
        rw [← hwt]
        cases res.thinking with
        | some th =>
          by_cases hth : th != ""
          · simp only [hth, if_true]
            exact eventsExtend_addEvent ..
          · simp only [hth, if_false]
            exact eventsExtend_refl w1
        | none => exact eventsExtend_refl w1
      by_cases htc : !res.toolCalls.isEmpty
      · simp only [htc, if_true]
        refine eventsExtend_trans h2 ?_
        rcases hp : processToolCalls env role res.toolCalls msgs wt with ⟨w3, pr⟩
        have h3 : EventsExtend wt w3 := by
          have := processToolCalls_events env role res.toolCalls msgs wt
          rw [hp] at this
          exact this
        cases pr with
        | error e => exact h3
        | ok msgs2 => exact eventsExtend_trans h3 (ih ..)
      · simp only [htc, if_false]
        exact eventsExtend_trans h2 (eventsExtend_trans (eventsExtend_addEvent ..)
          (eventsExtend_of_eq (updMetrics_events ..)))

lemma executeLoop_calls (env : Env) (role : AgentRole) (tools : List String) :
    ∀ (fuel step : Nat) (msgs : List Message) (w : World),
    (executeLoop env role tools fuel step msgs w).1.calls = w.calls := by
  intro fuel
  induction fuel with
  | zero => intro step msgs w; exact updMetrics_calls ..
  | succ fuel ih =>
    intro step msgs w
    simp only [executeLoop]
    rcases hc : call_llm env tools w with ⟨w1, r⟩
    have h1 : w1.calls = w.calls := by
      have := call_llm_calls env tools w
      rw [hc] at this
      exact this
    cases r with
    | error e =>
      dsimp only
      rw [updMetrics_calls, addEvent_calls, h1]
    | ok res =>
      dsimp only
      generalize hwt : (match res.thinking with
        | some th => if th != "" then w1.addEvent .agent_thinking (strTake th 500) (some role) [] else w1
        | none => w1) = wt
      have h2 : wt.calls = w.calls := by
        rw [← hwt]
        cases res.thinking with
        | some th =>
          by_cases hth : th != "" <;> simp [hth, addEvent_calls, h1]
        | none => exact h1
      by_cases htc : !res.toolCalls.isEmpty
      · simp only [htc, if_true]
        rcases hp : processToolCalls env role res.toolCalls msgs wt with ⟨w3, pr⟩
        have h3 : w3.calls = w.calls := by
          have := processToolCalls_calls env role res.toolCalls msgs wt
          rw [hp] at this
          rw [this, h2]
        cases pr with
        | error e => exact h3
        | ok msgs2 => rw [ih, h3]
      · simp [htc, updMetrics_calls, addEvent_calls, h2]

lemma executeLoop_llmCalls_le (env : Env) (role : AgentRole) (tools : List String) :
    ∀ (fuel step : Nat) (msgs : List Message) (w : World),
    (executeLoop env role tools fuel step msgs w).1.llmCalls ≤ w.llmCalls + fuel := by
  intro fuel
  induction fuel with
  | zero => intro step msgs w; simp [executeLoop, updMetrics_llmCalls]
  | succ fuel ih =>
    intro step msgs w
    simp only [executeLoop]
    rcases hc : call_llm env tools w with ⟨w1, r⟩
    have h1 : w1.llmCalls = w.llmCalls + 1 := by
      have := call_llm_llmCalls env tools w
      rw [hc] at this
      exact this
    cases r with
    | error e =>
      dsimp only
      rw [updMetrics_llmCalls, addEvent_llmCalls, h1]
      omega
    | ok res =>
      dsimp only
      generalize hwt : (match res.thinking with
        | some th => if th != "" then w1.addEvent .agent_thinking (strTake th 500) (some role) [] else w1
        | none => w1) = wt
      have h2 : wt.llmCalls = w.llmCalls + 1 := by
        rw [← hwt]
        cases res.thinking with
        | some th =>
          by_cases hth : th != "" <;> simp [hth, addEvent_llmCalls, h1]
        | none => exact h1
      by_cases htc : !res.toolCalls.isEmpty
      · simp only [htc, if_true]
        rcases hp : processToolCalls env role res.toolCalls msgs wt with ⟨w3, pr⟩
        have h3 : w3.llmCalls = w.llmCalls + 1 := by
          have := processToolCalls_llmCalls env role res.toolCalls msgs wt
          rw [hp] at this
          rw [this, h2]
        cases pr with
        | error e =>
          dsimp only
          rw [h3]
          omega
        | ok msgs2 =>
          dsimp only
          have := ih (step + 1) msgs2 w3
          rw [h3] at this
          omega
      · simp [htc, updMetrics_llmCalls, addEvent_llmCalls, h2]

lemma execute_events (env : Env) (role : AgentRole) (inp : String) (w : World) :
    EventsExtend w (BaseAgent.execute env role inp w).1 := by
  unfold BaseAgent.execute
  have h1 : EventsExtend w (World.addEvent { w with calls := w.calls ++ [(role, inp)] }
      .agent_start ("Agent " ++ role.value ++ " starting: " ++ strTake inp 100) (some role) []) :=
    ⟨[⟨.agent_start, some role, "Agent " ++ role.value ++ " starting: " ++ strTake inp 100, []⟩], rfl⟩
  exact eventsExtend_trans h1 (executeLoop_events ..)

lemma execute_calls (env : Env) (role : AgentRole) (inp : String) (w : World) :
    (BaseAgent.execute env role inp w).1.calls = w.calls ++ [(role, inp)] := by
  unfold BaseAgent.execute
  rw [executeLoop_calls]
  rfl

lemma execute_llmCalls_le (env : Env) (role : AgentRole) (inp : String) (w : World) :
    (BaseAgent.execute env role inp w).1.llmCalls ≤ w.llmCalls + maxSteps := by
  unfold BaseAgent.execute
  exact executeLoop_llmCalls_le ..

lemma execute_events_pair {env : Env} {role : AgentRole} {inp : String}
    {w w2 : World} {r : Except PyErr String}
    (h : BaseAgent.execute env role inp w = (w2, r)) : EventsExtend w w2 := by
  have := execute_events env role inp w
  rw [h] at this
  exact this

lemma execute_calls_pair {env : Env} {role : AgentRole} {inp : String}
    {w w2 : World} {r : Except PyErr String}
    (h : BaseAgent.execute env role inp w = (w2, r)) :
    w2.calls = w.calls ++ [(role, inp)] := by
  have := execute_calls env role inp w
  rw [h] at this
  exact this

lemma run_subtask_events (env : Env) (task : Task) (i : Nat) (ctx : String)
    (w : World) : EventsExtend w (_run_subtask env task i ctx w).2.1 := by
  unfold _run_subtask
  split
  · exact eventsExtend_refl w
  · split
    · exact eventsExtend_refl w
    · dsimp only
      split
      · rename_i w2 e heq
        exact eventsExtend_trans (eventsExtend_addEvent ..) (execute_events_pair heq)
      · rename_i w2 res heq
        exact eventsExtend_trans (eventsExtend_addEvent ..) (execute_events_pair heq)

lemma run_subtask_events_pair {env : Env} {task : Task} {i : Nat} {ctx : String}
    {w : World} {t1 : Task} {w1 : World} {r : Except PyErr String}
    (h : _run_subtask env task i ctx w = (t1, w1, r)) : EventsExtend w w1 := by
  have := run_subtask_events env task i ctx w
  rw [h] at this
  exact this

lemma seqGo_events (env : Env) (ui : String) :
    ∀ (order : List Nat) (ctx : String) (acc : List String) (task : Task) (w : World),
    EventsExtend w (seqGo env ui order ctx acc task w).2.1 := by
  intro order
  induction order with
  | nil => intro ctx acc task w; exact eventsExtend_refl w
  | cons i rest ih =>
    intro ctx acc task w
    simp only [seqGo]
    split
    · rename_i t1 w1 e heq
      exact run_subtask_events_pair heq
    · rename_i t1 w1 r heq
      exact eventsExtend_trans (run_subtask_events_pair heq) (ih ..)

lemma sequential_events (env : Env) (task : Task) (w : World) :
    EventsExtend w (_sequential env task w).2.1 := by
  unfold _sequential
  dsimp only
  split
  · rename_i t1 w1 e heq
    have := seqGo_events env task.user_input
      (sortIndicesBy (subPriority task) task.sub_tasks.length) task.user_input [] task w
    rw [heq] at this
    exact this
  · rename_i t1 w1 rs heq
    have := seqGo_events env task.user_input
      (sortIndicesBy (subPriority task) task.sub_tasks.length) task.user_input [] task w
    rw [heq] at this
    exact this

lemma gatherSubtasks_events (env : Env) (ui : String) :
    ∀ (idxs : List Nat) (task : Task) (w : World),
    EventsExtend w (gatherSubtasks env ui idxs task w).2.1 := by
  intro idxs
  induction idxs with
  | nil => intro task w; exact eventsExtend_refl w
  | cons i rest ih =>
    intro task w
    simp only [gatherSubtasks]
    rcases h1 : _run_subtask env task i (parEnriched ui (subDescription task i)) w with ⟨t1, w1, r⟩
    rcases h2 : gatherSubtasks env ui rest t1 w1 with ⟨t2, w2, rs⟩
    have e2 : EventsExtend w1 w2 := by
      have := ih t1 w1
      rw [h2] at this
      exact this
    exact eventsExtend_trans (run_subtask_events_pair h1) e2

lemma parallel_events (env : Env) (task : Task) (w : World) :
    EventsExtend w (_parallel env task w).2.1 := by
  unfold _parallel
  rcases hg : gatherSubtasks env task.user_input (List.range task.sub_tasks.length) task w with ⟨t1, w1, rs⟩
  have := gatherSubtasks_events env task.user_input (List.range task.sub_tasks.length) task w
  rw [hg] at this
  simpa using this

lemma gatherConsensus_events (env : Env) (q : String) :
    ∀ (roles : List AgentRole) (w : World),
    EventsExtend w (gatherConsensus env q roles w).1 := by
  intro roles
  induction roles with
  | nil => intro w; exact eventsExtend_refl w
  | cons r rest ih =>
    intro w
    simp only [gatherConsensus]
    rcases h1 : BaseAgent.execute env r q w with ⟨w1, res⟩
    rcases h2 : gatherConsensus env q rest w1 with ⟨w2, ress⟩
    have e2 : EventsExtend w1 w2 := by
      have := ih w1
      rw [h2] at this
      exact this
    exact eventsExtend_trans (execute_events_pair h1) e2

lemma gatherConsensus_calls (env : Env) (q : String) :
    ∀ (roles : List AgentRole) (w : World),
    (gatherConsensus env q roles w).1.calls = w.calls ++ roles.map (fun r => (r, q)) := by
  intro roles
  induction roles with
  | nil => intro w; simp [gatherConsensus]
  | cons r rest ih =>
    intro w
    simp only [gatherConsensus]
    rcases h1 : BaseAgent.execute env r q w with ⟨w1, res⟩
    rcases h2 : gatherConsensus env q rest w1 with ⟨w2, ress⟩
    have e2 : w2.calls = w1.calls ++ rest.map (fun r => (r, q)) := by
      have := ih w1
      rw [h2] at this
      exact this
    have e1 : w1.calls = w.calls ++ [(r, q)] := execute_calls_pair h1
    simp [e2, e1]

lemma consensus_events (env : Env) (task : Task) (w : World) :
    EventsExtend w (_consensus env task w).2.1 := by
  unfold _consensus
  dsimp only
  rcases hg : gatherConsensus env task.user_input consensusAgents w with ⟨w1, rs⟩
  have := gatherConsensus_events env task.user_input consensusAgents w
  rw [hg] at this
  simpa using this

lemma iterGo_events (env : Env) (ui : String) (p rv : AgentRole) :
    ∀ (fuel rn : Nat) (draft : String) (prev : Option String) (w : World),
    EventsExtend w (iterGo env ui p rv fuel rn draft prev w).1 := by
  intro fuel
  induction fuel with
  | zero => intro rn draft prev w; exact eventsExtend_refl w
  | succ fuel ih =>
    intro rn draft prev w
    simp only [iterGo]
    rcases h1 : BaseAgent.execute env rv (reviewPrompt ui draft rn) w with ⟨w1, res⟩
    cases res with
    | error e => exact execute_events_pair h1
    | ok review =>
      dsimp only
      by_cases hap : strContains (strUpper review) "APPROVED"
      · simp only [hap, if_true]
        exact execute_events_pair h1
      · simp only [hap, if_false]
        rcases h2 : BaseAgent.execute env p (refinePrompt ui draft review) w1 with ⟨w2, res2⟩
        cases res2 with
        | error e => exact eventsExtend_trans (execute_events_pair h1) (execute_events_pair h2)
        | ok draft2 =>
          exact eventsExtend_trans (execute_events_pair h1)
            (eventsExtend_trans (execute_events_pair h2) (ih ..))

lemma iterative_events (env : Env) (task : Task) (w : World) (mr : Nat) :
    EventsExtend w (_iterative env task w mr).2.1 := by
  unfold _iterative
  split
  · exact sequential_events env task w
  · split
    · exact eventsExtend_refl w
    · exact eventsExtend_refl w
    · rename_i producer reviewer hp hr
      rcases h1 : BaseAgent.execute env producer
          ("Original request: " ++ task.user_input ++ "\n\nYour task: " ++ subDescription task 0) w with ⟨w1, res⟩
      cases res with
      | error e => exact execute_events_pair h1
      | ok draft0 =>
        dsimp only
        rcases h2 : iterGo env task.user_input producer reviewer mr 0 draft0 none w1 with ⟨w2, res2⟩
        have e2 : EventsExtend w1 w2 := by
          have := iterGo_events env task.user_input producer reviewer mr 0 draft0 none w1
          rw [h2] at this
          exact this
        have e12 := eventsExtend_trans (execute_events_pair h1) e2
        cases res2 with
        | error e => exact e12
        | ok pr =>
          rcases pr with ⟨draft, rev⟩
          cases rev with
          | some review => exact e12
          | none => exact e12

lemma runStrategy_events (env : Env) (task : Task) (w : World) :
    EventsExtend w (runStrategy env task w).2.1 := by
  unfold runStrategy
  cases task.pipeline_type
  · exact sequential_events env task w
  · exact parallel_events env task w
  · exact consensus_events env task w
  · exact iterative_events env task w 3
  · exact sequential_events env task w

lemma pipeline_execute_events (env : Env) (task : Task) (w : World) :
    EventsExtend w (PipelineEngine.execute env task w).2.1 := by
  unfold PipelineEngine.execute
  dsimp only
  rcases hs : runStrategy env (taskRunning task) (pipelineStartWorld task w) with ⟨t1, w1, r⟩
  have e1 : EventsExtend w (pipelineStartWorld task w) := eventsExtend_addEvent ..
  have e2 : EventsExtend (pipelineStartWorld task w) w1 := by
    have := runStrategy_events env (taskRunning task) (pipelineStartWorld task w)
    rw [hs] at this
    exact this
  cases r with
  | ok result =>
    dsimp only
    exact eventsExtend_trans e1 (eventsExtend_trans e2 (eventsExtend_addEvent ..))
  | error e =>
    dsimp only
    exact eventsExtend_trans e1 (eventsExtend_trans e2
      (eventsExtend_trans (eventsExtend_addEvent ..) (eventsExtend_addEvent ..)))

lemma pipeline_execute_events_pair {env : Env} {task : Task} {w : World}
    {t1 : Task} {w1 : World} {r : String}
    (h : PipelineEngine.execute env task w = (t1, w1, r)) : EventsExtend w w1 := by
  have := pipeline_execute_events env task w
  rw [h] at this
  exact this

lemma route_and_execute_events (env : Env) (inp : String) (w : World) :
    EventsExtend w (OrchestratorAgent.route_and_execute env inp w).1 := by
  unfold OrchestratorAgent.route_and_execute
  dsimp only
  rcases h1 : BaseAgent.execute env .orchestrator inp
      (w.addEvent .user_message inp none []) with ⟨w1, res⟩
  have e1 : EventsExtend w w1 :=
    eventsExtend_trans (eventsExtend_addEvent ..) (execute_events_pair h1)
  cases res with
  | error e => exact e1
  | ok decision =>
    dsimp only
    split
    · exact e1
    · split
      · exact e1
      · rename_i current_task hlast
        split
        · exact e1
        · rcases h2 : PipelineEngine.execute env current_task w1 with ⟨t1, w2, result⟩
          have e2 : EventsExtend w1 w2 := pipeline_execute_events_pair h2
          split
          · rename_i w4 e heq
            have e3 := execute_events_pair heq
            exact eventsExtend_trans e1 (eventsExtend_trans e2
              (eventsExtend_trans (eventsExtend_of_eq rfl) e3))
          · rename_i w4 finalR heq
            have e3 := execute_events_pair heq
            exact eventsExtend_trans e1 (eventsExtend_trans e2
              (eventsExtend_trans (eventsExtend_of_eq rfl)
                (eventsExtend_trans e3 (eventsExtend_of_eq rfl))))

-- ── Shared concrete fixtures for witnesses and counterexamples ──

/-- Empty starting world. -/
def testWorld : World := ⟨⟨[], [], []⟩, 0, 0, []⟩

/-- Plain model reply with the given visible content and no tool calls. -/
def respOf (content : String) : ModelResponse :=
  ⟨some content, [], none, none, "stop", some (1, 2, 3)⟩

/-- Environment whose model always answers `reply<n>` on the n-th call and
whose tools always succeed. -/
def envPlain : Env :=
  { llm := fun n => .ok (respOf ("reply" ++ toString n)) 5
    web_search := fun _ => .ok "searched"
    web_fetch := fun _ => .ok "fetched"
    save_memory := fun _ => .ok "saved"
    recall_memory := fun _ => .ok "recalled"
    find_skill := fun _ => .ok "skills"
    use_skill := fun _ => .ok "skill"
    getSkillKnowledge := fun _ => none }

/-- Fresh pending sub-task fixture. -/
def mkSub (d : String) (r : AgentRole) (p : Int) : SubTask :=
  ⟨d, r, p, [], [], .pending, none, 0, 0⟩

-- ── C9 ──

/-- C9: Append-only event log invariant: every core operation
(`BaseAgent.execute`, `PipelineEngine.execute` and each of its four
strategies, `OrchestratorAgent.route_and_execute`) only appends `Event`s to
`thread.events` — for every environment and starting state, the prior event
list is a prefix of the new one (so no existing event is mutated, deleted or
reordered). -/
theorem c9_event_log_append_only :
    (∀ (env : Env) (role : AgentRole) (inp : String) (w : World),
      ∃ t, (BaseAgent.execute env role inp w).1.thread.events = w.thread.events ++ t) ∧
    (∀ (env : Env) (task : Task) (w : World),
      ∃ t, (PipelineEngine.execute env task w).2.1.thread.events = w.thread.events ++ t) ∧
    (∀ (env : Env) (task : Task) (w : World),
      ∃ t, (_sequential env task w).2.1.thread.events = w.thread.events ++ t) ∧
    (∀ (env : Env) (task : Task) (w : World),
      ∃ t, (_parallel env task w).2.1.thread.events = w.thread.events ++ t) ∧
    (∀ (env : Env) (task : Task) (w : World),
      ∃ t, (_consensus env task w).2.1.thread.events = w.thread.events ++ t) ∧
    (∀ (env : Env) (task : Task) (w : World) (mr : Nat),
      ∃ t, (_iterative env task w mr).2.1.thread.events = w.thread.events ++ t) ∧
    (∀ (env : Env) (inp : String) (w : World),
      ∃ t, (OrchestratorAgent.route_and_execute env inp w).1.thread.events = w.thread.events ++ t) :=
  ⟨fun env role inp w => execute_events env role inp w,
   fun env task w => pipeline_execute_events env task w,
   fun env task w => sequential_events env task w,
   fun env task w => parallel_events env task w,
   fun env task w => consensus_events env task w,
   fun env task w mr => iterative_events env task w mr,
   fun env inp w => route_and_execute_events env inp w⟩

-- ── C2 toolkit: metrics bookkeeping and loop behaviour ──

lemma lookup_assocUpdate {α : Type} (key : String) (f : α → α) :
    ∀ (l : List (String × α)), (assocUpdate key f l).lookup key = (l.lookup key).map f := by
  intro l
  induction l with
  | nil => rfl
  | cons p rest ih =>
    rcases p with ⟨k, v⟩
    by_cases hk : k = key
    · subst hk
      simp [assocUpdate, List.lookup]
    · have hk2 : ¬ key = k := fun h => hk h.symm
      have hb : (key == k) = false := beq_eq_false_iff_ne.mpr hk2
      simp [assocUpdate, List.lookup, hk, hb, ih]

lemma lookup_append_self {α : Type} (key : String) (x : α) :
    ∀ (l : List (String × α)), l.lookup key = none →
    (l ++ [(key, x)]).lookup key = some x := by
  intro l
  induction l with
  | nil => intro _; simp [List.lookup]
  | cons p rest ih =>
    rcases p with ⟨k, v⟩
    intro h
    by_cases hk : key = k
    · subst hk
      simp [List.lookup] at h
    · have hb : (key == k) = false := beq_eq_false_iff_ne.mpr hk
      simp only [List.cons_append, List.lookup, hb] at h ⊢
      exact ih h

lemma update_metrics_error_count (t : Thread) (role : AgentRole)
    (tok lat now : Nat) :
    ((t.update_metrics role tok lat false now).agent_metrics.lookup role.value).map
        (fun m => m.error_count) =
      some (((t.agent_metrics.lookup role.value).getD AgentMetrics.init).error_count + 1) := by
  unfold Thread.update_metrics
  dsimp only
  rcases ho : t.agent_metrics.lookup role.value with _ | ⟨m⟩
  · simp only [ho, Option.isSome_none, Bool.false_eq_true, if_false]
    rw [lookup_assocUpdate, lookup_append_self role.value AgentMetrics.init t.agent_metrics ho]
    simp
  · simp only [ho, Option.isSome_some, if_true]
    rw [lookup_assocUpdate, ho]
    simp

lemma addEvent_metrics (w : World) (ty : EventType) (c : String)
    (r : Option AgentRole) (m : List (String × Json)) :
    (w.addEvent ty c r m).thread.agent_metrics = w.thread.agent_metrics := rfl

lemma call_llm_metrics (env : Env) (tools : List String) (w : World) :
    (call_llm env tools w).1.thread.agent_metrics = w.thread.agent_metrics := by
  cases h : env.llm w.llmCalls <;> simp [call_llm, h]

lemma decompose_metrics (fn_args : Json) (w : World) :
    (_handle_decompose fn_args w).1.thread.agent_metrics = w.thread.agent_metrics := by
  unfold _handle_decompose
  split
  · rfl
  · split
    · rfl
    · split
      · rfl
      · rfl

lemma handle_tool_call_metrics (env : Env) (role : AgentRole) (n a : Json) (w : World) :
    (handle_tool_call env role n a w).1.thread.agent_metrics = w.thread.agent_metrics := by
  cases role <;> simp only [handle_tool_call]
  case orchestrator =>
    split
    · exact decompose_metrics a w
    · split <;> try rfl
      split <;> rfl

lemma processToolCalls_metrics (env : Env) (role : AgentRole)
    (tcs : List ToolCallMsg) (msgs : List Message) (w : World) :
    (processToolCalls env role tcs msgs w).1.thread.agent_metrics = w.thread.agent_metrics := by
  induction tcs generalizing msgs w with
  | nil => rfl
  | cons tc rest ih =>
    simp only [processToolCalls]
    split
    · rfl
    · rename_i args hargs
      rcases hcall : handle_tool_call env role tc.name args
          (w.addEvent .tool_call (pyStr tc.name ++ "(" ++ strTake (jsonDumps args) 200 ++ ")") (some role) []) with ⟨w2, tr⟩
      have h2 : w2.thread.agent_metrics = w.thread.agent_metrics := by
        have := handle_tool_call_metrics env role tc.name args
          (w.addEvent .tool_call (pyStr tc.name ++ "(" ++ strTake (jsonDumps args) 200 ++ ")") (some role) [])
        rw [hcall] at this
        simpa using this
      cases tr with
      | error e => exact h2
      | ok v => rw [ih, addEvent_metrics, h2]

/-- A tool call whose argument string parses and whose handler returns
normally for every state. -/
def ToolCallOk (env : Env) (role : AgentRole) (tc : ToolCallMsg) : Prop :=
  ∃ args, jsonLoadsArg tc.arguments = .ok args ∧
    ∀ w : World, ∃ v, (handle_tool_call env role tc.name args w).2 = .ok v

lemma processToolCalls_ok (env : Env) (role : AgentRole) :
    ∀ (tcs : List ToolCallMsg) (msgs : List Message) (w : World),
    (∀ tc ∈ tcs, ToolCallOk env role tc) →
    ∃ msgs2 w3, processToolCalls env role tcs msgs w = (w3, .ok msgs2) := by
  intro tcs
  induction tcs with
  | nil => intro msgs w _; exact ⟨msgs, w, rfl⟩
  | cons tc rest ih =>
    intro msgs w hok
    obtain ⟨args, hargs, hhandle⟩ := hok tc (by simp)
    simp only [processToolCalls, hargs]
    obtain ⟨v, hv⟩ := hhandle
      (w.addEvent .tool_call (pyStr tc.name ++ "(" ++ strTake (jsonDumps args) 200 ++ ")") (some role) [])
    rcases hcall : handle_tool_call env role tc.name args
        (w.addEvent .tool_call (pyStr tc.name ++ "(" ++ strTake (jsonDumps args) 200 ++ ")") (some role) []) with ⟨w2, tr⟩
    rw [hcall] at hv
    simp at hv
    subst hv
    exact ih _ _ (fun t ht => hok t (by simp [ht]))

/-- One loop iteration in which the model requests at least one tool call
and every requested call is dispatchable. -/
def ToolLoopStep (env : Env) (role : AgentRole) (tools : List String) (n : Nat) : Prop :=
  ∃ resp el, env.llm n = .ok resp el ∧
    (processResponse tools resp el).toolCalls ≠ [] ∧
    ∀ tc ∈ (processResponse tools resp el).toolCalls, ToolCallOk env role tc

lemma executeLoop_all_tool_calls (env : Env) (role : AgentRole) (tools : List String) :
    ∀ (fuel step : Nat) (msgs : List Message) (w : World),
    (∀ k, k < fuel → ToolLoopStep env role tools (w.llmCalls + k)) →
    ∃ wEnd : World, executeLoop env role tools fuel step msgs w =
        (wEnd.updMetrics role 0 0 false, .ok "[Warning] Max steps reached — partial result.") ∧
      wEnd.thread.agent_metrics = w.thread.agent_metrics := by
  intro fuel
  induction fuel with
  | zero =>
    intro step msgs w _
    exact ⟨w, rfl, rfl⟩
  | succ fuel ih =>
    intro step msgs w hsteps
    obtain ⟨resp, el, hllm, hne, hok⟩ := hsteps 0 (by omega)
    rw [Nat.add_zero] at hllm
    simp only [executeLoop, call_llm, hllm]
    generalize hwt : (match (processResponse tools resp el).thinking with
      | some th => if th != "" then
          ({ w with llmCalls := w.llmCalls + 1, now := w.now + el } : World).addEvent
            .agent_thinking (strTake th 500) (some role) []
        else { w with llmCalls := w.llmCalls + 1, now := w.now + el }
      | none => { w with llmCalls := w.llmCalls + 1, now := w.now + el }) = wt
    have hwtm : wt.thread.agent_metrics = w.thread.agent_metrics := by
      rw [← hwt]
      cases (processResponse tools resp el).thinking with
      | some th => by_cases hth : th != "" <;> simp [hth, addEvent_metrics]
      | none => rfl
    have hwtc : wt.llmCalls = w.llmCalls + 1 := by
      rw [← hwt]
      cases (processResponse tools resp el).thinking with
      | some th => by_cases hth : th != "" <;> simp [hth, addEvent_llmCalls]
      | none => rfl
    have htc : (!(processResponse tools resp el).toolCalls.isEmpty) = true := by
      cases hc : (processResponse tools resp el).toolCalls with
      | nil => exact absurd hc hne
      | cons a b => simp
    simp only [htc, if_true]
    obtain ⟨msgs2, w3, hpt⟩ := processToolCalls_ok env role
      (processResponse tools resp el).toolCalls msgs wt hok
    rw [hpt]
    have h3m : w3.thread.agent_metrics = w.thread.agent_metrics := by
      have := processToolCalls_metrics env role (processResponse tools resp el).toolCalls msgs wt
      rw [hpt] at this
      simp at this
      rw [this, hwtm]
    have h3c : w3.llmCalls = w.llmCalls + 1 := by
      have := processToolCalls_llmCalls env role (processResponse tools resp el).toolCalls msgs wt
      rw [hpt] at this
      simp at this
      rw [this, hwtc]
    obtain ⟨wEnd, hrun, hm⟩ := ih (step + 1) msgs2 w3 (by
      intro k hk
      have := hsteps (k + 1) (by omega)
      rw [h3c]
      have harith : w.llmCalls + (k + 1) = w.llmCalls + 1 + k := by omega
      rw [harith] at this
      exact this)
    exact ⟨wEnd, hrun, by rw [hm, h3m]⟩

lemma executeLoop_no_tool_calls (env : Env) (role : AgentRole) (tools : List String)
    (fuel step : Nat) (msgs : List Message) (w : World) (resp : ModelResponse) (el : Nat)
    (hllm : env.llm w.llmCalls = .ok resp el)
    (hnc : (processResponse tools resp el).toolCalls = []) :
    (executeLoop env role tools (fuel + 1) step msgs w).2 =
      .ok (processResponse tools resp el).content ∧
    (executeLoop env role tools (fuel + 1) step msgs w).1.llmCalls = w.llmCalls + 1 := by
  simp only [executeLoop, call_llm, hllm]
  generalize hwt : (match (processResponse tools resp el).thinking with
    | some th => if th != "" then
        ({ w with llmCalls := w.llmCalls + 1, now := w.now + el } : World).addEvent
          .agent_thinking (strTake th 500) (some role) []
      else { w with llmCalls := w.llmCalls + 1, now := w.now + el }
    | none => { w with llmCalls := w.llmCalls + 1, now := w.now + el }) = wt
  have hwtc : wt.llmCalls = w.llmCalls + 1 := by
    rw [← hwt]
    cases (processResponse tools resp el).thinking with
    | some th => by_cases hth : th != "" <;> simp [hth, addEvent_llmCalls]
    | none => rfl
  have htc : (!(processResponse tools resp el).toolCalls.isEmpty) = false := by
    rw [hnc]
    rfl
  simp only [htc, if_false]
  exact ⟨rfl, by simp [updMetrics_llmCalls, addEvent_llmCalls, hwtc]⟩

lemma execute_no_tool_calls (env : Env) (role : AgentRole) (inp : String)
    (w : World) (resp : ModelResponse) (el : Nat)
    (hllm : env.llm w.llmCalls = .ok resp el)
    (hnc : (processResponse (getTools role) resp el).toolCalls = []) :
    (BaseAgent.execute env role inp w).2 =
      .ok (processResponse (getTools role) resp el).content ∧
    (BaseAgent.execute env role inp w).1.llmCalls = w.llmCalls + 1 := by
  unfold BaseAgent.execute
  exact executeLoop_no_tool_calls env role (getTools role) 9 0 _ _ resp el hllm hnc

lemma execute_all_tool_calls (env : Env) (role : AgentRole) (inp : String)
    (w : World)
    (h : ∀ k, k < maxSteps → ToolLoopStep env role (getTools role) (w.llmCalls + k)) :
    (BaseAgent.execute env role inp w).2 =
      .ok "[Warning] Max steps reached — partial result." ∧
    ((BaseAgent.execute env role inp w).1.thread.agent_metrics.lookup role.value).map
        (fun m => m.error_count) =
      some (((w.thread.agent_metrics.lookup role.value).getD AgentMetrics.init).error_count + 1) := by
  unfold BaseAgent.execute
  obtain ⟨wEnd, hrun, hm⟩ := executeLoop_all_tool_calls env role (getTools role) maxSteps 0
    (build_context role (World.addEvent { w with calls := w.calls ++ [(role, inp)] }
      .agent_start ("Agent " ++ role.value ++ " starting: " ++ strTake inp 100) (some role) []).thread inp)
    (World.addEvent { w with calls := w.calls ++ [(role, inp)] }
      .agent_start ("Agent " ++ role.value ++ " starting: " ++ strTake inp 100) (some role) [])
    h
  rw [hrun]
  refine ⟨rfl, ?_⟩
  have hkey := update_metrics_error_count wEnd.thread role 0 0 wEnd.now
  have hw : (World.addEvent { w with calls := w.calls ++ [(role, inp)] }
      .agent_start ("Agent " ++ role.value ++ " starting: " ++ strTake inp 100)
      (some role) []).thread.agent_metrics = w.thread.agent_metrics := rfl
  rw [hw] at hm
  rw [show (wEnd.updMetrics role 0 0 false).thread =
      wEnd.thread.update_metrics role 0 0 false wEnd.now from rfl]
  rw [hkey, hm]

-- ── C2 ──

/-- C2: the tool-call loop of `BaseAgent.execute` performs at most
`max_steps` (10) model invocations for any input and environment; if the
first reply requests no tool call, exactly one model invocation occurs and
the reply's visible content is returned; if every iteration requests
dispatchable tool calls, the warning string for a partial result is returned
and a failure is recorded in the agent's metrics (its error count is bumped
by one). -/
theorem c2_tool_loop_bounded :
    (∀ (env : Env) (role : AgentRole) (inp : String) (w : World),
      (BaseAgent.execute env role inp w).1.llmCalls ≤ w.llmCalls + maxSteps) ∧
    (∀ (env : Env) (role : AgentRole) (inp : String) (w : World)
        (resp : ModelResponse) (el : Nat),
      env.llm w.llmCalls = .ok resp el →
      (processResponse (getTools role) resp el).toolCalls = [] →
      (BaseAgent.execute env role inp w).2 =
        .ok (processResponse (getTools role) resp el).content ∧
      (BaseAgent.execute env role inp w).1.llmCalls = w.llmCalls + 1) ∧
    (∀ (env : Env) (role : AgentRole) (inp : String) (w : World),
      (∀ k, k < maxSteps → ToolLoopStep env role (getTools role) (w.llmCalls + k)) →
      (BaseAgent.execute env role inp w).2 =
        .ok "[Warning] Max steps reached — partial result." ∧
      ((BaseAgent.execute env role inp w).1.thread.agent_metrics.lookup role.value).map
          (fun m => m.error_count) =
        some (((w.thread.agent_metrics.lookup role.value).getD
          AgentMetrics.init).error_count + 1)) :=
  ⟨fun env role inp w => execute_llmCalls_le env role inp w,
   fun env role inp w resp el hllm hnc => execute_no_tool_calls env role inp w resp el hllm hnc,
   fun env role inp w h => execute_all_tool_calls env role inp w h⟩

/-- Model reply that always requests one dispatchable tool call. -/
def respLoop : ModelResponse :=
  ⟨some "", [⟨"id1", .str "find_skill", .s "\x7b\x7d"⟩], none, none, "tool_calls", some (1, 2, 3)⟩

/-- Environment whose model requests a tool call on every step. -/
def envLoop : Env := { envPlain with llm := fun _ => .ok respLoop 5 }

/-- Witness for C2: with a plain environment the executor answers in one
model call with the first reply's content; with an always-tool-calling
environment it returns the partial-result warning after the step budget and
records one failure. -/
theorem c2_tool_loop_bounded_witness :
    ((BaseAgent.execute envPlain .thinker "hi" testWorld).2 =
        .ok (processResponse (getTools .thinker) (respOf "reply0") 5).content ∧
      (BaseAgent.execute envPlain .thinker "hi" testWorld).1.llmCalls =
        testWorld.llmCalls + 1) ∧
    ((BaseAgent.execute envLoop .thinker "go" testWorld).2 =
        .ok "[Warning] Max steps reached — partial result." ∧
      ((BaseAgent.execute envLoop .thinker "go" testWorld).1.thread.agent_metrics.lookup
          AgentRole.thinker.value).map (fun m => m.error_count) =
        some (((testWorld.thread.agent_metrics.lookup
          AgentRole.thinker.value).getD AgentMetrics.init).error_count + 1)) := by
  refine ⟨c2_tool_loop_bounded.2.1 envPlain .thinker "hi" testWorld (respOf "reply0") 5 rfl rfl, ?_⟩
  refine c2_tool_loop_bounded.2.2 envLoop .thinker "go" testWorld ?_
  intro k hk
  refine ⟨respLoop, 5, rfl, ?_, ?_⟩
  · intro hcon
    have hred : (processResponse (getTools .thinker) respLoop 5).toolCalls =
        [⟨"id1", .str "find_skill", .s "\x7b\x7d"⟩] := rfl
    rw [hred] at hcon
    cases hcon
  · intro tc htc
    have hred : (processResponse (getTools .thinker) respLoop 5).toolCalls =
        [⟨"id1", .str "find_skill", .s "\x7b\x7d"⟩] := rfl
    rw [hred] at htc
    simp only [List.mem_singleton] at htc
    subst htc
    exact ⟨.obj [], rfl, fun w => ⟨.str "skills", rfl⟩⟩

-- ── Consensus strategy analysis (C5, C10) ──

lemma gatherConsensus_length (env : Env) (q : String) :
    ∀ (roles : List AgentRole) (w : World),
    (gatherConsensus env q roles w).2.length = roles.length := by
  intro roles
  induction roles with
  | nil => intro w; rfl
  | cons r rest ih =>
    intro w
    simp only [gatherConsensus]
    rcases h1 : BaseAgent.execute env r q w with ⟨w1, res⟩
    rcases h2 : gatherConsensus env q rest w1 with ⟨w2, ress⟩
    have := ih w1
    rw [h2] at this
    simpa using this

/-- Task record after the pipeline envelope's success path. -/
def taskCompleted (task : Task) (lat : Nat) : Task :=
  { task with status := .completed, total_latency_ms := lat }

/-- Header line of the consensus result. -/
def consensusHeader : String :=
  "CONSENSUS RESULTS — Multiple agents answered the same question:\n"

/-- Labeled entry of one consensus identity's outcome. -/
def consensusEntry (p : AgentRole × Except PyErr String) : String :=
  match p.2 with
  | .error e => "[" ++ p.1.value ++ "] Error: " ++ e.msg
  | .ok r => "[" ++ p.1.value ++ "] " ++ r

lemma pipeline_consensus_run (env : Env) (task : Task) (w : World)
    (h : task.pipeline_type = .consensus) :
    ∃ (w1 : World) (rs : List (Except PyErr String)),
      rs.length = 4 ∧
      gatherConsensus env task.user_input consensusAgents (pipelineStartWorld task w) = (w1, rs) ∧
      PipelineEngine.execute env task w =
        (taskCompleted task ((w1.now - (pipelineStartWorld task w).now) * 1000),
         w1.addEvent .pipeline_complete
           ("Pipeline " ++ task.pipeline_type.value ++ " completed: " ++ TaskStatus.completed.value)
           none [("latency_ms", .num (((w1.now - (pipelineStartWorld task w).now) * 1000 : Nat) : Int))],
         String.intercalate "\n\n---\n\n"
           (consensusHeader :: (consensusAgents.zip rs).map consensusEntry)) := by
  rcases hg : gatherConsensus env task.user_input consensusAgents (pipelineStartWorld task w) with ⟨w1, rs⟩
  have hlen : rs.length = 4 := by
    have := gatherConsensus_length env task.user_input consensusAgents (pipelineStartWorld task w)
    rw [hg] at this
    simpa [consensusAgents] using this
  refine ⟨w1, rs, hlen, rfl, ?_⟩
  unfold PipelineEngine.execute
  dsimp only
  have hrs : runStrategy env (taskRunning task) (pipelineStartWorld task w) =
      _consensus env (taskRunning task) (pipelineStartWorld task w) := by
    unfold runStrategy
    have hpt : (taskRunning task).pipeline_type = PipelineType.consensus := h
    rw [hpt]
  rw [hrs]
  unfold _consensus
  dsimp only [taskRunning]
  rw [hg]
  rfl

/-- Consensus-pipeline fixture: one declared sub-task, consensus strategy. -/
def taskCons : Task := ⟨"orig input", .consensus, [mkSub "x" .speed 1], .pending, none, 0, 0⟩

-- ── C5 ──

/-- C5: under the consensus strategy exactly the four fixed specialist
identities (thinker, speed, researcher, reasoner) are each invoked once with
the Task's original user input verbatim, regardless of the declared
sub-tasks, and the final result is the header line followed by each
identity's labeled entry (result or contained error) in that fixed order. -/
theorem c5_consensus_fixed_identities (env : Env) (task : Task) (w : World)
    (h : task.pipeline_type = .consensus) :
    (PipelineEngine.execute env task w).2.1.calls =
      w.calls ++ [(.thinker, task.user_input), (.speed, task.user_input),
                  (.researcher, task.user_input), (.reasoner, task.user_input)] ∧
    ∃ outs : List (Except PyErr String),
      outs.length = 4 ∧
      (PipelineEngine.execute env task w).2.2 =
        String.intercalate "\n\n---\n\n"
          (consensusHeader :: (consensusAgents.zip outs).map consensusEntry) := by
  obtain ⟨w1, rs, hlen, hg, hexec⟩ := pipeline_consensus_run env task w h
  constructor
  · rw [hexec]
    have hc := gatherConsensus_calls env task.user_input consensusAgents (pipelineStartWorld task w)
    rw [hg] at hc
    simp only at hc
    rw [addEvent_calls, hc]
    rfl
  · exact ⟨rs, hlen, by rw [hexec]⟩

/-- Witness for C5 at a concrete consensus task with one declared sub-task. -/
theorem c5_consensus_fixed_identities_witness :
    (PipelineEngine.execute envPlain taskCons testWorld).2.1.calls =
      testWorld.calls ++ [(.thinker, taskCons.user_input), (.speed, taskCons.user_input),
                  (.researcher, taskCons.user_input), (.reasoner, taskCons.user_input)] ∧
    ∃ outs : List (Except PyErr String),
      outs.length = 4 ∧
      (PipelineEngine.execute envPlain taskCons testWorld).2.2 =
        String.intercalate "\n\n---\n\n"
          (consensusHeader :: (consensusAgents.zip outs).map consensusEntry) :=
  c5_consensus_fixed_identities envPlain taskCons testWorld rfl

-- ── C10 ──

/-- C10: the consensus strategy neither reads nor writes the declared
`SubTask` records: after a consensus pipeline run every declared sub-task is
exactly as before (status, result, token and latency fields included), while
the Task itself is marked completed and pipeline events were appended. -/
theorem c10_consensus_subtasks_frame (env : Env) (task : Task) (w : World)
    (h : task.pipeline_type = .consensus) :
    (PipelineEngine.execute env task w).1.sub_tasks = task.sub_tasks ∧
    (PipelineEngine.execute env task w).1.status = .completed ∧
    ∃ tail, tail ≠ [] ∧
      (PipelineEngine.execute env task w).2.1.thread.events = w.thread.events ++ tail := by
  obtain ⟨w1, rs, hlen, hg, hexec⟩ := pipeline_consensus_run env task w h
  refine ⟨by rw [hexec]; rfl, by rw [hexec]; rfl, ?_⟩
  have he1 : EventsExtend (pipelineStartWorld task w) w1 := by
    have := gatherConsensus_events env task.user_input consensusAgents (pipelineStartWorld task w)
    rw [hg] at this
    exact this
  obtain ⟨t2, ht2⟩ := he1
  rw [hexec]
  dsimp only
  rw [addEvent_events, ht2]
  have hse : (pipelineStartWorld task w).thread.events =
      w.thread.events ++ [⟨.pipeline_start, none,
        "Starting " ++ task.pipeline_type.value ++ " pipeline with " ++
          toString task.sub_tasks.length ++ " sub-tasks", []⟩] := rfl
  rw [hse]
  refine ⟨⟨.pipeline_start, none,
      "Starting " ++ task.pipeline_type.value ++ " pipeline with " ++
        toString task.sub_tasks.length ++ " sub-tasks", []⟩ ::
    (t2 ++ [⟨.pipeline_complete, none,
      "Pipeline " ++ task.pipeline_type.value ++ " completed: " ++ TaskStatus.completed.value,
      [("latency_ms", .num (((w1.now - (pipelineStartWorld task w).now) * 1000 : Nat) : Int))]⟩]),
    by simp, ?_⟩
  simp

/-- Witness for C10 at the concrete consensus fixture. -/
theorem c10_consensus_subtasks_frame_witness :
    (PipelineEngine.execute envPlain taskCons testWorld).1.sub_tasks = taskCons.sub_tasks ∧
    (PipelineEngine.execute envPlain taskCons testWorld).1.status = .completed ∧
    ∃ tail, tail ≠ [] ∧
      (PipelineEngine.execute envPlain taskCons testWorld).2.1.thread.events =
        testWorld.thread.events ++ tail :=
  c10_consensus_subtasks_frame envPlain taskCons testWorld rfl

-- ── C1 ──

/-- Model reply whose structured tool call carries a malformed JSON
argument string. -/
def respBadArgs : ModelResponse :=
  ⟨some "x", [⟨"id1", .str "web_search", .s "notjson"⟩], none, none, "stop", none⟩

/-- Environment always replying with the malformed-argument tool call. -/
def envBadArgs : Env := { envPlain with llm := fun _ => .ok respBadArgs 5 }

/-- Model reply with a well-formed web-search tool call. -/
def respToolRaise : ModelResponse :=
  ⟨some "x", [⟨"id1", .str "web_search", .s "\x7b\x7d"⟩], none, none, "stop", none⟩

/-- Environment whose web-search tool handler raises. -/
def envToolRaise : Env :=
  { envPlain with llm := fun _ => .ok respToolRaise 5, web_search := fun _ => .error ⟨"RuntimeError", "boom"⟩ }

/-- Counterexample to C1: `BaseAgent.execute` does not convert every failure
to a returned string — a structured tool call with a malformed JSON argument
string propagates `json.JSONDecodeError` out of `execute`, and a raising
tool handler propagates its exception out of `execute`. -/
theorem c1_counterexample :
    (BaseAgent.execute envBadArgs .thinker "hi" testWorld).2 =
      .error ⟨"json.JSONDecodeError", "Expecting value"⟩ ∧
    (BaseAgent.execute envToolRaise .thinker "hi" testWorld).2 =
      .error ⟨"RuntimeError", "boom"⟩ :=
  ⟨rfl, rfl⟩

/-- Environment/role pair in which every tool call the model can request is
dispatchable (its argument string parses and its handler returns). -/
def EnvToolSafe (env : Env) (role : AgentRole) : Prop :=
  ∀ k resp el, env.llm k = .ok resp el →
    ∀ tc ∈ (processResponse (getTools role) resp el).toolCalls, ToolCallOk env role tc

lemma executeLoop_returns (env : Env) (role : AgentRole)
    (hsafe : ∀ k resp el, env.llm k = .ok resp el →
      ∀ tc ∈ (processResponse (getTools role) resp el).toolCalls, ToolCallOk env role tc) :
    ∀ (fuel step : Nat) (msgs : List Message) (w : World),
    ∃ s, (executeLoop env role (getTools role) fuel step msgs w).2 = .ok s := by
  intro fuel
  induction fuel with
  | zero => intro step msgs w; exact ⟨_, rfl⟩
  | succ fuel ih =>
    intro step msgs w
    rcases hllm : env.llm w.llmCalls with ⟨resp, el⟩ | ⟨e, el⟩
    · simp only [executeLoop, call_llm, hllm]
      generalize hwt : (match (processResponse (getTools role) resp el).thinking with
        | some th => if th != "" then
            ({ w with llmCalls := w.llmCalls + 1, now := w.now + el } : World).addEvent
              .agent_thinking (strTake th 500) (some role) []
          else { w with llmCalls := w.llmCalls + 1, now := w.now + el }
        | none => { w with llmCalls := w.llmCalls + 1, now := w.now + el }) = wt
      by_cases htc : !(processResponse (getTools role) resp el).toolCalls.isEmpty
      · simp only [htc, if_true]
        obtain ⟨msgs2, w3, hpt⟩ := processToolCalls_ok env role
          (processResponse (getTools role) resp el).toolCalls msgs wt
          (hsafe w.llmCalls resp el hllm)
        rw [hpt]
        exact ih ..
      · simp only [htc, if_false]
        exact ⟨_, rfl⟩
    · simp only [executeLoop, call_llm, hllm]
      exact ⟨_, rfl⟩

/-- Amended C1: `PipelineEngine.execute` never lets an exception cross its
boundary — it always returns a string, converting an uncaught strategy
exception into a short pipeline-error text — and `BaseAgent.execute`
returns a string whenever every structured tool-call argument string parses
as JSON and every tool handler returns normally; only those two failure
sources (argument parsing and tool handlers) can propagate an exception out
of `BaseAgent.execute`, as the counterexample shows. -/
theorem c1_failure_containment :
    (∀ (env : Env) (role : AgentRole) (inp : String) (w : World),
      EnvToolSafe env role →
      ∃ s, (BaseAgent.execute env role inp w).2 = .ok s) ∧
    (∀ (env : Env) (task : Task) (w : World),
      (PipelineEngine.execute env task w).2.2 =
        match (runStrategy env (taskRunning task) (pipelineStartWorld task w)).2.2 with
        | .ok r => r
        | .error e => "[Pipeline Error] " ++ e.msg) := by
  constructor
  · intro env role inp w hsafe
    unfold BaseAgent.execute
    exact executeLoop_returns env role hsafe maxSteps 0 _ _
  · intro env task w
    unfold PipelineEngine.execute
    dsimp only
    rcases hs : runStrategy env (taskRunning task) (pipelineStartWorld task w) with ⟨t1, w1, r⟩
    cases r <;> rfl

/-- Witness for the amended C1 at a concrete safe environment (the model
always requests a dispatchable tool call). -/
theorem c1_failure_containment_witness :
    ∃ s, (BaseAgent.execute envLoop .thinker "go" testWorld).2 = .ok s := by
  refine c1_failure_containment.1 envLoop .thinker "go" testWorld ?_
  intro k resp el hk
  have hk2 : LLMOutcome.ok respLoop 5 = LLMOutcome.ok resp el := hk
  injection hk2 with hr he
  subst hr
  subst he
  intro tc htc
  have hred : (processResponse (getTools .thinker) respLoop 5).toolCalls =
      [⟨"id1", .str "find_skill", .s "\x7b\x7d"⟩] := rfl
  rw [hred] at htc
  simp only [List.mem_singleton] at htc
  subst htc
  exact ⟨.obj [], rfl, fun w => ⟨.str "skills", rfl⟩⟩

-- ── C8 toolkit: the strategies touch only the sub-task list ──

/-- Every `Task` field except `sub_tasks`, bundled for frame lemmas. -/
def Task.sansSubs (t : Task) :
    String × PipelineType × TaskStatus × Option String × Nat × Nat :=
  (t.user_input, t.pipeline_type, t.status, t.final_result, t.total_tokens, t.total_latency_ms)

lemma sansSubs_latency {a b : Task} (h : a.sansSubs = b.sansSubs) :
    a.total_latency_ms = b.total_latency_ms :=
  congrArg (fun p => p.2.2.2.2.2) h

lemma sansSubs_ptype {a b : Task} (h : a.sansSubs = b.sansSubs) :
    a.pipeline_type = b.pipeline_type :=
  congrArg (fun p => p.2.1) h


lemma run_subtask_sansSubs (env : Env) (task : Task) (i : Nat)
    (ctx : String) (w : World) :
    (_run_subtask env task i ctx w).1.sansSubs = task.sansSubs := by
  unfold _run_subtask
  split
  · rfl
  · split
    · rfl
    · dsimp only
      split
      · rfl
      · rfl

lemma seqGo_sansSubs (env : Env) (ui : String) :
    ∀ (order : List Nat) (ctx : String) (acc : List String) (task : Task) (w : World),
    (seqGo env ui order ctx acc task w).1.sansSubs = task.sansSubs := by
  intro order
  induction order with
  | nil => intro ctx acc task w; rfl
  | cons i rest ih =>
    intro ctx acc task w
    simp only [seqGo]
    split
    · rename_i t1 w1 e heq
      have := run_subtask_sansSubs env task i (seqEnriched ui ctx (subDescription task i)) w
      rw [heq] at this
      exact this
    · rename_i t1 w1 r heq
      have h1 := run_subtask_sansSubs env task i (seqEnriched ui ctx (subDescription task i)) w
      rw [heq] at h1
      rw [ih, h1]

lemma sequential_sansSubs (env : Env) (task : Task) (w : World) :
    (_sequential env task w).1.sansSubs = task.sansSubs := by
  unfold _sequential
  dsimp only
  split
  · rename_i t1 w1 e heq
    have := seqGo_sansSubs env task.user_input
      (sortIndicesBy (subPriority task) task.sub_tasks.length) task.user_input [] task w
    rw [heq] at this
    exact this
  · rename_i t1 w1 rs heq
    have := seqGo_sansSubs env task.user_input
      (sortIndicesBy (subPriority task) task.sub_tasks.length) task.user_input [] task w
    rw [heq] at this
    exact this

lemma gatherSubtasks_sansSubs (env : Env) (ui : String) :
    ∀ (idxs : List Nat) (task : Task) (w : World),
    (gatherSubtasks env ui idxs task w).1.sansSubs = task.sansSubs := by
  intro idxs
  induction idxs with
  | nil => intro task w; rfl
  | cons i rest ih =>
    intro task w
    simp only [gatherSubtasks]
    rcases h1 : _run_subtask env task i (parEnriched ui (subDescription task i)) w with ⟨t1, w1, r⟩
    rcases h2 : gatherSubtasks env ui rest t1 w1 with ⟨t2, w2, rs⟩
    have ha := run_subtask_sansSubs env task i (parEnriched ui (subDescription task i)) w
    rw [h1] at ha
    have hb := ih t1 w1
    rw [h2] at hb
    simp only
    rw [hb, ha]

lemma parallelMerge_sansSubs :
    ∀ (prs : List (Nat × Except PyErr String)) (task : Task),
    (parallelMerge task prs).1.sansSubs = task.sansSubs := by
  intro prs
  induction prs with
  | nil => intro task; rfl
  | cons p rest ih =>
    intro task
    rcases p with ⟨i, r⟩
    cases r with
    | error e =>
      simp only [parallelMerge]
      rw [ih]
      rfl
    | ok v => simp only [parallelMerge]; rw [ih]

lemma parallel_sansSubs (env : Env) (task : Task) (w : World) :
    (_parallel env task w).1.sansSubs = task.sansSubs := by
  unfold _parallel
  rcases hg : gatherSubtasks env task.user_input (List.range task.sub_tasks.length) task w with ⟨t1, w1, rs⟩
  have ha := gatherSubtasks_sansSubs env task.user_input (List.range task.sub_tasks.length) task w
  rw [hg] at ha
  dsimp only
  rw [parallelMerge_sansSubs, ha]

lemma consensus_sansSubs (env : Env) (task : Task) (w : World) :
    (_consensus env task w).1.sansSubs = task.sansSubs := by
  unfold _consensus
  rcases hg : gatherConsensus env task.user_input consensusAgents w with ⟨w1, rs⟩
  rfl

lemma iterative_sansSubs (env : Env) (task : Task) (w : World) (mr : Nat) :
    (_iterative env task w mr).1.sansSubs = task.sansSubs := by
  unfold _iterative
  split
  · exact sequential_sansSubs env task w
  · split
    · rfl
    · rfl
    · rename_i producer reviewer hp hr
      rcases h1 : BaseAgent.execute env producer
          ("Original request: " ++ task.user_input ++ "\n\nYour task: " ++ subDescription task 0) w with ⟨w1, res⟩
      cases res with
      | error e => rfl
      | ok draft0 =>
        dsimp only
        rcases h2 : iterGo env task.user_input producer reviewer mr 0 draft0 none w1 with ⟨w2, res2⟩
        cases res2 with
        | error e => rfl
        | ok pr =>
          rcases pr with ⟨draft, rev⟩
          cases rev with
          | some review => rfl
          | none => rfl

lemma runStrategy_sansSubs (env : Env) (task : Task) (w : World) :
    (runStrategy env task w).1.sansSubs = task.sansSubs := by
  unfold runStrategy
  cases task.pipeline_type
  · exact sequential_sansSubs env task w
  · exact parallel_sansSubs env task w
  · exact consensus_sansSubs env task w
  · exact iterative_sansSubs env task w 3
  · exact sequential_sansSubs env task w

lemma runStrategy_events_pair {env : Env} {task : Task} {w : World}
    {t1 : Task} {w1 : World} {r : Except PyErr String}
    (h : runStrategy env task w = (t1, w1, r)) : EventsExtend w w1 := by
  have := runStrategy_events env task w
  rw [h] at this
  exact this

-- ── C8 ──

/-- The pipeline-start event record. -/
def pipelineStartEvent (task : Task) : Event :=
  ⟨.pipeline_start, none,
    "Starting " ++ task.pipeline_type.value ++ " pipeline with " ++
      toString task.sub_tasks.length ++ " sub-tasks", []⟩

/-- The pipeline-complete event record carrying a status and a latency. -/
def pipelineCompleteEvent (task : Task) (st : TaskStatus) (lat : Nat) : Event :=
  ⟨.pipeline_complete, none,
    "Pipeline " ++ task.pipeline_type.value ++ " completed: " ++ st.value,
    [("latency_ms", .num (lat : Int))]⟩

/-- Sequential fixture whose second sub-task's agent resolution raises
(`get_agent` has no orchestrator entry) after the first sub-task consumed
one model call of 5 ticks. -/
def taskSeqFail : Task :=
  ⟨"q", .sequential, [mkSub "a" .speed 1, mkSub "b" .orchestrator 2], .pending, none, 0, 0⟩

/-- Counterexample to C8: on a failing run the wall-clock duration of the
run is not recorded on the Task — the run takes 5 ticks (5000 model
milliseconds) but `total_latency_ms` keeps its prior value 0, and the
pipeline-complete event therefore carries 0 as well. -/
theorem c8_counterexample :
    (PipelineEngine.execute envPlain taskSeqFail testWorld).1.status = .failed ∧
    (PipelineEngine.execute envPlain taskSeqFail testWorld).1.total_latency_ms = 0 ∧
    ((PipelineEngine.execute envPlain taskSeqFail testWorld).2.1.now - testWorld.now) * 1000 = 5000 ∧
    (PipelineEngine.execute envPlain taskSeqFail testWorld).2.1.thread.events.getLast? =
      some (pipelineCompleteEvent taskSeqFail .failed 0) :=
  ⟨rfl, rfl, rfl, rfl⟩

/-- Amended C8: every `PipelineEngine.execute` run appends the
pipeline-start event first and the pipeline-complete event last, the latter
carrying the final status and the Task's `total_latency_ms` field; on
success the Task is completed and the run's wall-clock duration is recorded
in that field; if the strategy body raises, the Task is failed, an error
event carrying the exception text is emitted just before the complete
event, the returned result is the \"[Pipeline Error] ...\" text, and
`total_latency_ms` keeps its value from before the run (the duration is not
recorded on failure). -/
theorem c8_pipeline_envelope (env : Env) (task : Task) (w : World) :
    ∃ mid : List Event,
      (PipelineEngine.execute env task w).2.1.thread.events =
        w.thread.events ++ pipelineStartEvent task ::
          (mid ++ [pipelineCompleteEvent task (PipelineEngine.execute env task w).1.status
            (PipelineEngine.execute env task w).1.total_latency_ms]) ∧
      (match runStrategy env (taskRunning task) (pipelineStartWorld task w) with
       | (_, w1, .ok r) =>
          (PipelineEngine.execute env task w).1.status = .completed ∧
          (PipelineEngine.execute env task w).1.total_latency_ms =
            (w1.now - (pipelineStartWorld task w).now) * 1000 ∧
          (PipelineEngine.execute env task w).2.2 = r
       | (_, _, .error e) =>
          (PipelineEngine.execute env task w).1.status = .failed ∧
          (PipelineEngine.execute env task w).1.total_latency_ms = task.total_latency_ms ∧
          (PipelineEngine.execute env task w).2.2 = "[Pipeline Error] " ++ e.msg ∧
          ∃ pre, mid = pre ++ [⟨.error, none, "[Pipeline Error] " ++ e.msg, []⟩]) := by
  unfold PipelineEngine.execute
  dsimp only
  rcases hs : runStrategy env (taskRunning task) (pipelineStartWorld task w) with ⟨t1, w1, r⟩
  obtain ⟨t2, ht2⟩ := runStrategy_events_pair hs
  have hfr : t1.sansSubs = (taskRunning task).sansSubs := by
    have := runStrategy_sansSubs env (taskRunning task) (pipelineStartWorld task w)
    rw [hs] at this
    exact this
  have hlat : t1.total_latency_ms = task.total_latency_ms := (sansSubs_latency hfr).trans rfl
  have hpt : t1.pipeline_type = task.pipeline_type := (sansSubs_ptype hfr).trans rfl
  have hse : (pipelineStartWorld task w).thread.events =
      w.thread.events ++ [pipelineStartEvent task] := rfl
  cases r with
  | ok result =>
    refine ⟨t2, ?_, rfl, rfl, rfl⟩
    dsimp only
    rw [addEvent_events, ht2, hse]
    simp [pipelineCompleteEvent, hpt]
  | error e =>
    refine ⟨t2 ++ [⟨.error, none, "[Pipeline Error] " ++ e.msg, []⟩], ?_, rfl, hlat, rfl, t2, rfl⟩
    dsimp only
    rw [addEvent_events, addEvent_events, ht2, hse]
    simp [pipelineCompleteEvent, hlat, hpt]

-- ── C7 ──

/-- Model reply whose text carries exactly one fallback tool-call block. -/
def respFallback : ModelResponse :=
  ⟨some "<tool_call>\x7b\"name\":\"x\",\"arguments\":\x7b\"a\":1\x7d\x7d</tool_call>",
   [], none, none, "stop", none⟩

lemma parseOneToolBlock_name_truthy (m : String) (tc : ToolCallMsg)
    (h : parseOneToolBlock m = some tc) : tc.name.truthy = true := by
  unfold parseOneToolBlock at h
  split at h
  · exact Option.noConfusion h
  · split at h
    · exact Option.noConfusion h
    · split at h
      · exact Option.noConfusion h
      · split at h
        · exact Option.noConfusion h
        · split at h
          · rename_i htruthy
            cases h
            exact htruthy
          · exact Option.noConfusion h

/-- C7: fallback textual tool-call parsing: the exact spec example
`<tool_call>{"name":"x","arguments":{"a":1}}</tool_call>` yields exactly one
call to `x` whose argument string parses back to `{"a": 1}`, with the tag
stripped from the visible content; a block with malformed JSON is skipped
while the remaining blocks still parse; a block whose JSON lacks a function
name is discarded; every occurrence is parsed as an independent call in
order; and every produced call carries a truthy function name. -/
theorem c7_fallback_tool_parsing :
    ((processResponse (getTools .thinker) respFallback 5).toolCalls =
        [⟨"text_call_", .str "x", .s "\x7b\"a\": 1\x7d"⟩] ∧
      jsonLoadsArg (ArgVal.s "\x7b\"a\": 1\x7d") = .ok (.obj [("a", .num 1)]) ∧
      (processResponse (getTools .thinker) respFallback 5).content = "") ∧
    (_parse_text_tool_calls
        "<tool_call>\x7bbad</tool_call><tool_call>\x7b\"name\":\"y\"\x7d</tool_call>" =
      some [⟨"text_call_", .str "y", .s "\x7b\x7d"⟩]) ∧
    (_parse_text_tool_calls "<tool_call>\x7b\"arguments\": \x7b\"a\": 1\x7d\x7d</tool_call>" = none) ∧
    (_parse_text_tool_calls
        "<tool_call>\x7b\"name\":\"u\"\x7d</tool_call> and <tool_call>\x7b\"name\":\"v\"\x7d</tool_call>" =
      some [⟨"text_call_", .str "u", .s "\x7b\x7d"⟩, ⟨"text_call_", .str "v", .s "\x7b\x7d"⟩]) ∧
    (∀ (b : String) (rest : List String) (e : PyErr), jsonLoads b = .error e →
      (b :: rest).filterMap parseOneToolBlock = rest.filterMap parseOneToolBlock) ∧
    (∀ (content : String) (tcs : List ToolCallMsg),
      _parse_text_tool_calls content = some tcs →
      ∀ tc ∈ tcs, tc.name.truthy = true) := by
  refine ⟨⟨rfl, rfl, rfl⟩, rfl, rfl, rfl, ?_, ?_⟩
  · intro b rest e he
    have hb : parseOneToolBlock b = none := by
      unfold parseOneToolBlock
      rw [he]
    rw [List.filterMap_cons_none hb]
  · intro content tcs h tc htc
    unfold _parse_text_tool_calls at h
    split at h
    · exact Option.noConfusion h
    · dsimp only at h
      split at h
      · exact Option.noConfusion h
      · split at h
        · exact Option.noConfusion h
        · cases h
          obtain ⟨m, hmem, hm⟩ := List.mem_filterMap.mp htc
          exact parseOneToolBlock_name_truthy m tc hm

/-- Witness for C7 discharging the hypothesis-bearing conjuncts at concrete
inputs: the malformed block `{bad` is skipped, and the single-block spec
example's produced call has a truthy name. -/
theorem c7_fallback_tool_parsing_witness :
    (("\x7bbad" : String) :: ["\x7b\"name\":\"y\"\x7d"]).filterMap parseOneToolBlock =
      (["\x7b\"name\":\"y\"\x7d"] : List String).filterMap parseOneToolBlock ∧
    ∀ tc ∈ [(⟨"text_call_", .str "x", .s "\x7b\"a\": 1\x7d"⟩ : ToolCallMsg)], tc.name.truthy = true := by
  constructor
  · exact c7_fallback_tool_parsing.2.2.2.2.1 "\x7bbad" ["\x7b\"name\":\"y\"\x7d"]
      ⟨"json.JSONDecodeError", "Expecting value"⟩ rfl
  · exact c7_fallback_tool_parsing.2.2.2.2.2
      "<tool_call>\x7b\"name\":\"x\",\"arguments\":\x7b\"a\":1\x7d\x7d</tool_call>"
      [⟨"text_call_", .str "x", .s "\x7b\"a\": 1\x7d"⟩] rfl

-- ── C4 toolkit: per-index effects of sub-task execution ──

lemma listUpdate_get? {α : Type} (f : α → α) :
    ∀ (l : List α) (i j : Nat),
    (listUpdate l i f)[j]? = if j = i then l[j]?.map f else l[j]? := by
  intro l
  induction l with
  | nil => intro i j; simp [listUpdate]
  | cons x xs ih =>
    intro i j
    cases i with
    | zero =>
      cases j with
      | zero => simp [listUpdate]
      | succ j => simp [listUpdate]
    | succ i =>
      cases j with
      | zero => simp [listUpdate]
      | succ j =>
        simp only [listUpdate, List.getElem?_cons_succ]
        rw [ih i j]
        by_cases hji : j = i
        · simp [hji]
        · simp [hji]

lemma listUpdate_length {α : Type} (f : α → α) :
    ∀ (l : List α) (i : Nat), (listUpdate l i f).length = l.length := by
  intro l
  induction l with
  | nil => intro i; rfl
  | cons x xs ih =>
    intro i
    cases i with
    | zero => rfl
    | succ i => simp [listUpdate, ih]

lemma run_subtask_subs_length (env : Env) (task : Task) (i : Nat) (ctx : String)
    (w : World) :
    (_run_subtask env task i ctx w).1.sub_tasks.length = task.sub_tasks.length := by
  unfold _run_subtask
  split
  · rfl
  · split
    · simp [listUpdate_length]
    · dsimp only
      split
      · simp [listUpdate_length]
      · simp [listUpdate_length]

lemma run_subtask_other (env : Env) (task : Task) (i : Nat) (ctx : String)
    (w : World) (j : Nat) (hj : j ≠ i) :
    (_run_subtask env task i ctx w).1.sub_tasks.get? j = task.sub_tasks.get? j := by
  unfold _run_subtask
  split
  · rfl
  · split
    · simp [listUpdate_get?, hj]
    · dsimp only
      split
      · simp [listUpdate_get?, hj]
      · simp [listUpdate_get?, hj]

lemma run_subtask_self_err (env : Env) (task : Task) (i : Nat) (ctx : String)
    (w : World) (st : SubTask) (t1 : Task) (w1 : World) (e : PyErr)
    (hst : task.sub_tasks.get? i = some st)
    (h : _run_subtask env task i ctx w = (t1, w1, .error e)) :
    t1.sub_tasks.get? i = some { st with status := .running } := by
  have hst2 : task.sub_tasks[i]? = some st := by
    rw [← List.get?_eq_getElem?]
    exact hst
  unfold _run_subtask at h
  rw [hst] at h
  dsimp only at h
  split at h
  · simp only [Prod.mk.injEq] at h
    obtain ⟨ht, hw, hr⟩ := h
    subst ht
    dsimp only
    rw [List.get?_eq_getElem?, listUpdate_get?, if_pos rfl, hst2]
    rfl
  · split at h
    · simp only [Prod.mk.injEq] at h
      obtain ⟨ht, hw, hr⟩ := h
      subst ht
      dsimp only
      rw [List.get?_eq_getElem?, listUpdate_get?, if_pos rfl, hst2]
      rfl
    · simp at h

lemma run_subtask_self_ok (env : Env) (task : Task) (i : Nat) (ctx : String)
    (w : World) (st : SubTask) (t1 : Task) (w1 : World) (r : String)
    (hst : task.sub_tasks.get? i = some st)
    (h : _run_subtask env task i ctx w = (t1, w1, .ok r)) :
    ∃ lat, t1.sub_tasks.get? i =
      some { st with status := .completed, result := some r, latency_ms := lat } := by
  have hst2 : task.sub_tasks[i]? = some st := by
    rw [← List.get?_eq_getElem?]
    exact hst
  unfold _run_subtask at h
  rw [hst] at h
  dsimp only at h
  split at h
  · simp at h
  · split at h
    · simp at h
    · simp only [Prod.mk.injEq] at h
      obtain ⟨ht, hw, hr⟩ := h
      subst ht
      injection hr with hrr
      subst hrr
      apply Exists.intro
      dsimp only
      rw [List.get?_eq_getElem?, listUpdate_get?, if_pos rfl, listUpdate_get?, if_pos rfl, hst2]
      rfl

lemma gatherSubtasks_spec (env : Env) (ui : String) :
    ∀ (idxs : List Nat) (task : Task) (w : World),
    idxs.Nodup →
    (∀ i ∈ idxs, ∃ st, task.sub_tasks.get? i = some st) →
    (gatherSubtasks env ui idxs task w).2.2.length = idxs.length ∧
    (∀ j, j ∉ idxs →
      (gatherSubtasks env ui idxs task w).1.sub_tasks.get? j = task.sub_tasks.get? j) ∧
    (∀ k i, idxs.get? k = some i → ∀ st, task.sub_tasks.get? i = some st →
      ((∃ r lat, (gatherSubtasks env ui idxs task w).2.2.get? k = some (.ok r) ∧
          (gatherSubtasks env ui idxs task w).1.sub_tasks.get? i =
            some { st with status := .completed, result := some r, latency_ms := lat }) ∨
       (∃ e, (gatherSubtasks env ui idxs task w).2.2.get? k = some (.error e) ∧
          (gatherSubtasks env ui idxs task w).1.sub_tasks.get? i =
            some { st with status := .running }))) := by
  intro idxs
  induction idxs with
  | nil =>
    intro task w _ _
    refine ⟨rfl, fun j _ => rfl, fun k i h => ?_⟩
    simp at h
  | cons i idxs ih =>
    intro task w hnd hb
    obtain ⟨hni, hndt⟩ := List.nodup_cons.mp hnd
    simp only [gatherSubtasks]
    rcases hrun : _run_subtask env task i (parEnriched ui (subDescription task i)) w with ⟨t1, w1, r⟩
    rcases hg : gatherSubtasks env ui idxs t1 w1 with ⟨t2, w2, rs⟩
    have hother : ∀ j, j ≠ i → t1.sub_tasks.get? j = task.sub_tasks.get? j := by
      intro j hj
      have := run_subtask_other env task i (parEnriched ui (subDescription task i)) w j hj
      rw [hrun] at this
      exact this
    have hbt1 : ∀ i2 ∈ idxs, ∃ st, t1.sub_tasks.get? i2 = some st := by
      intro i2 hi2
      have hne : i2 ≠ i := fun hcon => hni (hcon ▸ hi2)
      rw [hother i2 hne]
      exact hb i2 (by simp [hi2])
    have IH := ih t1 w1 hndt hbt1
    rw [hg] at IH
    obtain ⟨ihlen, ihout, ihpos⟩ := IH
    dsimp only at ihlen ihout ihpos ⊢
    refine ⟨by simp [ihlen], ?_, ?_⟩
    · intro j hj
      have hji : j ≠ i := fun hcon => hj (by simp [hcon])
      have hjn : j ∉ idxs := fun hcon => hj (by simp [hcon])
      rw [ihout j hjn, hother j hji]
    · intro k i2 hk st hst
      cases k with
      | zero =>
        simp only [List.get?] at hk
        injection hk with hk
        subst hk
        have hiout : t2.sub_tasks.get? i = t1.sub_tasks.get? i := ihout i hni
        cases r with
        | ok v =>
          obtain ⟨lat, hself⟩ := run_subtask_self_ok env task i
            (parEnriched ui (subDescription task i)) w st t1 w1 v hst hrun
          exact Or.inl ⟨v, lat, rfl, by rw [hiout, hself]⟩
        | error e =>
          have hself := run_subtask_self_err env task i
            (parEnriched ui (subDescription task i)) w st t1 w1 e hst hrun
          exact Or.inr ⟨e, rfl, by rw [hiout, hself]⟩
      | succ k =>
        simp only [List.get?] at hk
        have hmem : i2 ∈ idxs := List.get?_mem hk
        have hne : i2 ≠ i := fun hcon => hni (hcon ▸ hmem)
        have hst1 : t1.sub_tasks.get? i2 = some st := by rw [hother i2 hne, hst]
        exact ihpos k i2 hk st hst1

lemma parallelMerge_spec :
    ∀ (prs : List (Nat × Except PyErr String)) (task : Task),
    (parallelMerge task prs).2.length = prs.length ∧
    (∀ k i r, prs.get? k = some (i, r) →
      (parallelMerge task prs).2.get? k = some (match r with
        | .ok v => "[" ++ subAgentValue task i ++ "] " ++ v
        | .error e => "[" ++ subAgentValue task i ++ "] Error: " ++ e.msg)) ∧
    (∀ j, (∀ e, ((j, Except.error e) : Nat × Except PyErr String) ∉ prs) →
      (parallelMerge task prs).1.sub_tasks.get? j = task.sub_tasks.get? j) ∧
    (∀ j e, ((j, Except.error e) : Nat × Except PyErr String) ∈ prs →
      (∃ st, task.sub_tasks.get? j = some st) →
      (((parallelMerge task prs).1.sub_tasks.get? j).map (fun s => s.status)) = some .failed) := by
  intro prs
  induction prs with
  | nil =>
    intro task
    refine ⟨rfl, ?_, fun j _ => rfl, ?_⟩
    · intro k i r h
      simp at h
    · intro j e h
      simp at h
  | cons p rest ih =>
    intro task
    rcases p with ⟨i, r⟩
    cases r with
    | ok v =>
      simp only [parallelMerge]
      rcases hm : parallelMerge task rest with ⟨task2, parts⟩
      have IH := ih task
      rw [hm] at IH
      obtain ⟨ihlen, ihparts, ihout, ihfail⟩ := IH
      refine ⟨by simp [ihlen], ?_, ?_, ?_⟩
      · intro k i2 r2 hk
        cases k with
        | zero =>
          simp only [List.get?] at hk ⊢
          injection hk with hk
          injection hk with h1 h2
          subst h1
          subst h2
          rfl
        | succ k =>
          simp only [List.get?] at hk ⊢
          exact ihparts k i2 r2 hk
      · intro j hj
        exact ihout j (fun e2 hcon => hj e2 (by simp [hcon]))
      · intro j e2 hmem hst
        rcases List.mem_cons.mp hmem with hhead | htail
        · exact absurd hhead (by simp)
        · exact ihfail j e2 htail hst
    | error e =>
      simp only [parallelMerge]
      rcases hm : parallelMerge { task with sub_tasks := listUpdate task.sub_tasks i (fun s => { s with status := TaskStatus.failed }) } rest with ⟨task2, parts⟩
      have IH := ih { task with sub_tasks := listUpdate task.sub_tasks i (fun s => { s with status := TaskStatus.failed }) }
      rw [hm] at IH
      obtain ⟨ihlen, ihparts, ihout, ihfail⟩ := IH
      have hagent : ∀ j, subAgentValue { task with sub_tasks := listUpdate task.sub_tasks i (fun s => { s with status := TaskStatus.failed }) } j = subAgentValue task j := by
        intro j
        unfold subAgentValue
        dsimp only
        rw [List.get?_eq_getElem?, List.get?_eq_getElem?, listUpdate_get?]
        by_cases hj : j = i
        · subst hj
          cases hx : task.sub_tasks[j]? <;> simp [hx]
        · simp [hj]
      have hupd : ∀ j, j ≠ i →
          (listUpdate task.sub_tasks i (fun s => { s with status := TaskStatus.failed })).get? j =
          task.sub_tasks.get? j := by
        intro j hj
        rw [List.get?_eq_getElem?, List.get?_eq_getElem?, listUpdate_get?]
        simp [hj]
      refine ⟨by simp [ihlen], ?_, ?_, ?_⟩
      · intro k i2 r2 hk
        cases k with
        | zero =>
          simp only [List.get?] at hk ⊢
          injection hk with hk
          injection hk with h1 h2
          subst h1
          subst h2
          rfl
        | succ k =>
          simp only [List.get?] at hk ⊢
          have := ihparts k i2 r2 hk
          rw [this]
          cases r2 <;> simp [hagent]
      · intro j hj
        have hji : j ≠ i := by
          intro hcon
          exact hj e (by simp [hcon])
        rw [ihout j (fun e2 hcon => hj e2 (by simp [hcon])), hupd j hji]
      · intro j e2 hmem hstex
        obtain ⟨st, hst⟩ := hstex
        have hsome1 : ∃ st2,
            (listUpdate task.sub_tasks i (fun s => { s with status := TaskStatus.failed })).get? j =
              some st2 ∧ (j = i → st2.status = TaskStatus.failed) := by
          rw [List.get?_eq_getElem?, listUpdate_get?]
          by_cases hj : j = i
          · subst hj
            rw [List.get?_eq_getElem?] at hst
            refine ⟨{ st with status := TaskStatus.failed }, ?_, fun _ => rfl⟩
            simp [hst]
          · rw [List.get?_eq_getElem?] at hst
            exact ⟨st, by simp [hj, hst], fun hcon => absurd hcon hj⟩
        obtain ⟨st2, hst2, hfailif⟩ := hsome1
        rcases List.mem_cons.mp hmem with hhead | htail
        · have hji : j = i := by
            have := congrArg Prod.fst hhead
            simpa using this
          by_cases hrest : ∃ e3, ((j, Except.error e3) : Nat × Except PyErr String) ∈ rest
          · obtain ⟨e3, he3⟩ := hrest
            exact ihfail j e3 he3 ⟨st2, hst2⟩
          · push_neg at hrest
            rw [ihout j hrest, hst2]
            simp [hfailif hji]
        · exact ihfail j e2 htail ⟨st2, hst2⟩

/-- `get?` of a zip, positionally. -/
lemma zip_get? {α β : Type} :
    ∀ (l1 : List α) (l2 : List β) (k : Nat),
    (l1.zip l2).get? k = (l1.get? k).bind (fun a => (l2.get? k).map (fun b => (a, b))) := by
  intro l1
  induction l1 with
  | nil =>
    intro l2 k
    simp
  | cons a l1 ih =>
    intro l2 k
    cases l2 with
    | nil => cases k <;> simp
    | cons b l2 =>
      cases k with
      | zero => rfl
      | succ k => simpa using ih l2 k

/-- The gather phase preserves the number of sub-tasks. -/
lemma gatherSubtasks_subs_length (env : Env) (ui : String) :
    ∀ (idxs : List Nat) (task : Task) (w : World),
    (gatherSubtasks env ui idxs task w).1.sub_tasks.length = task.sub_tasks.length := by
  intro idxs
  induction idxs with
  | nil => intro task w; rfl
  | cons i idxs ih =>
    intro task w
    simp only [gatherSubtasks]
    rcases hrun : _run_subtask env task i (parEnriched ui (subDescription task i)) w with ⟨t1, w1, r⟩
    rcases hg : gatherSubtasks env ui idxs t1 w1 with ⟨t2, w2, rs⟩
    have h1 := run_subtask_subs_length env task i (parEnriched ui (subDescription task i)) w
    rw [hrun] at h1
    have h2 := ih t1 w1
    rw [hg] at h2
    dsimp only at h1 h2 ⊢
    rw [h2, h1]

/-- The merge phase preserves the number of sub-tasks. -/
lemma parallelMerge_subs_length :
    ∀ (prs : List (Nat × Except PyErr String)) (task : Task),
    (parallelMerge task prs).1.sub_tasks.length = task.sub_tasks.length := by
  intro prs
  induction prs with
  | nil => intro task; rfl
  | cons p rest ih =>
    intro task
    rcases p with ⟨i, r⟩
    cases r with
    | ok v =>
      simp only [parallelMerge]
      rcases hm : parallelMerge task rest with ⟨t2, parts⟩
      have h2 := ih task
      rw [hm] at h2
      exact h2
    | error e =>
      simp only [parallelMerge]
      rcases hm : parallelMerge { task with sub_tasks := listUpdate task.sub_tasks i (fun s => { s with status := TaskStatus.failed }) } rest with ⟨t2, parts⟩
      have h2 := ih { task with sub_tasks := listUpdate task.sub_tasks i (fun s => { s with status := TaskStatus.failed }) }
      rw [hm] at h2
      dsimp only at h2 ⊢
      rw [h2]
      exact listUpdate_length _ task.sub_tasks i

-- ── C4 ──

/-- C4: parallel strategy failure containment.  For a parallel Task whose
gather phase yields an exception on exactly one branch `j` and a normal
result on every other branch, the pipeline run completes the Task (status
`completed`, not `failed`), keeps all sub-tasks, marks sub-task `j` failed
while every other sub-task is completed with its branch result stored, and
the combined result joins one labeled entry per branch where exactly entry
`j` is rendered in the `Error:` form (siblings keep their normal labeled
results, so no branch aborts the others). -/
theorem c4_parallel_failure_containment
    (env : Env) (task : Task) (w : World) (j : Nat) (e : PyErr)
    (t1 : Task) (w1 : World) (results : List (Except PyErr String))
    (hpt : task.pipeline_type = PipelineType.parallel)
    (hG : gatherSubtasks env task.user_input (List.range task.sub_tasks.length) (taskRunning task) (pipelineStartWorld task w) = (t1, w1, results))
    (hj : results.get? j = some (Except.error e))
    (hok : ∀ k, k < task.sub_tasks.length → k ≠ j → ∃ r, results.get? k = some (Except.ok r)) :
    (PipelineEngine.execute env task w).1.status = TaskStatus.completed ∧
    (PipelineEngine.execute env task w).1.sub_tasks.length = task.sub_tasks.length ∧
    (((PipelineEngine.execute env task w).1.sub_tasks.get? j).map (fun s => s.status)) = some TaskStatus.failed ∧
    (∀ k, k < task.sub_tasks.length → k ≠ j →
      ∃ st r lat, task.sub_tasks.get? k = some st ∧ results.get? k = some (Except.ok r) ∧
        (PipelineEngine.execute env task w).1.sub_tasks.get? k = some { st with status := TaskStatus.completed, result := some r, latency_ms := lat }) ∧
    (∃ parts : List String,
      parts.length = task.sub_tasks.length ∧
      parts.get? j = some ("[" ++ subAgentValue task j ++ "] Error: " ++ e.msg) ∧
      (∀ k, k < task.sub_tasks.length → k ≠ j →
        ∃ r, results.get? k = some (Except.ok r) ∧
          parts.get? k = some ("[" ++ subAgentValue task k ++ "] " ++ r)) ∧
      (PipelineEngine.execute env task w).2.2 = String.intercalate "\n\n---\n\n" parts) := by
  have hget : ∀ k, k < task.sub_tasks.length → ∃ st, task.sub_tasks.get? k = some st := by
    intro k hk
    refine ⟨task.sub_tasks.get ⟨k, hk⟩, ?_⟩
    rw [List.get?_eq_getElem?]
    exact List.getElem?_eq_getElem hk
  have hb : ∀ i ∈ List.range task.sub_tasks.length, ∃ st, (taskRunning task).sub_tasks.get? i = some st := by
    intro i hi
    rw [List.mem_range] at hi
    exact hget i hi
  have SPEC := gatherSubtasks_spec env task.user_input (List.range task.sub_tasks.length)
    (taskRunning task) (pipelineStartWorld task w) (List.nodup_range task.sub_tasks.length) hb
  rw [hG] at SPEC
  obtain ⟨glen, gout, gpos⟩ := SPEC
  dsimp only at glen gout gpos
  rw [List.length_range] at glen
  have hrg : ∀ k, k < task.sub_tasks.length → (List.range task.sub_tasks.length).get? k = some k := by
    intro k hk
    rw [List.get?_eq_getElem?]
    simp [List.getElem?_range, hk]
  have hjlt : j < task.sub_tasks.length := by
    by_contra hcon
    push_neg at hcon
    have hnone : results.get? j = none := by
      rw [List.get?_eq_getElem?]
      exact List.getElem?_eq_none (by omega)
    rw [hnone] at hj
    exact Option.noConfusion hj
  obtain ⟨stj, hstj⟩ := hget j hjlt
  have hstj0 : (taskRunning task).sub_tasks.get? j = some stj := hstj
  have htj : t1.sub_tasks.get? j = some { stj with status := TaskStatus.running } := by
    rcases gpos j j (hrg j hjlt) stj hstj0 with ⟨r, lat, hr, _⟩ | ⟨e2, hr, ht⟩
    · rw [hj] at hr
      exact absurd hr (by simp)
    · exact ht
  have hzip : ∀ k x, results.get? k = some x →
      ((List.range task.sub_tasks.length).zip results).get? k = some (k, x) := by
    intro k x hx
    have hk : k < results.length := by
      by_contra hcon
      push_neg at hcon
      rw [List.get?_eq_getElem?, List.getElem?_eq_none hcon] at hx
      exact Option.noConfusion hx
    rw [zip_get?, hrg k (by omega), hx]
    rfl
  have hmemj : ((j, Except.error e) : Nat × Except PyErr String) ∈
      (List.range task.sub_tasks.length).zip results := List.get?_mem (hzip j _ hj)
  have hnomem : ∀ k, k ≠ j → ∀ e3, ((k, Except.error e3) : Nat × Except PyErr String) ∉
      (List.range task.sub_tasks.length).zip results := by
    intro k hne e3 hcon
    obtain ⟨m, hm⟩ := List.mem_iff_get?.mp hcon
    rw [zip_get?] at hm
    have hmlt : m < task.sub_tasks.length := by
      by_contra hcon2
      push_neg at hcon2
      rw [List.get?_eq_getElem?, List.getElem?_eq_none (by simpa using hcon2)] at hm
      simp at hm
    rw [hrg m hmlt] at hm
    rcases h2 : results.get? m with _ | b
    · rw [h2] at hm
      simp at hm
    · rw [h2] at hm
      simp only [Option.bind, Option.map, Prod.mk.injEq, Option.some.injEq] at hm
      obtain ⟨hmk, hbe⟩ := hm
      subst hmk
      subst hbe
      obtain ⟨r, hrk⟩ := hok m hmlt hne
      rw [h2] at hrk
      exact Except.noConfusion (Option.some.inj hrk)
  rcases hM : parallelMerge t1 ((List.range task.sub_tasks.length).zip results) with ⟨t2, parts⟩
  have MSPEC := parallelMerge_spec ((List.range task.sub_tasks.length).zip results) t1
  rw [hM] at MSPEC
  obtain ⟨mlen, mparts, mout, mfail⟩ := MSPEC
  dsimp only at mlen mparts mout mfail
  have hziplen : ((List.range task.sub_tasks.length).zip results).length = task.sub_tasks.length := by
    rw [List.length_zip, List.length_range, glen]
    exact Nat.min_self _
  have hagents : ∀ k, k < task.sub_tasks.length → subAgentValue t1 k = subAgentValue task k := by
    intro k hk
    obtain ⟨st, hst⟩ := hget k hk
    have hst0 : (taskRunning task).sub_tasks.get? k = some st := hst
    rcases gpos k k (hrg k hk) st hst0 with ⟨r, lat, _, ht⟩ | ⟨e2, _, ht⟩
    · unfold subAgentValue
      rw [ht, hst]
      rfl
    · unfold subAgentValue
      rw [ht, hst]
      rfl
  have ht2j : ((t2.sub_tasks.get? j).map (fun s => s.status)) = some TaskStatus.failed :=
    mfail j e hmemj ⟨_, htj⟩
  have ht1len : t1.sub_tasks.length = task.sub_tasks.length := by
    have hh := gatherSubtasks_subs_length env task.user_input (List.range task.sub_tasks.length) (taskRunning task) (pipelineStartWorld task w)
    rw [hG] at hh
    exact hh
  have ht2len : t2.sub_tasks.length = task.sub_tasks.length := by
    have hh := parallelMerge_subs_length ((List.range task.sub_tasks.length).zip results) t1
    rw [hM] at hh
    dsimp only at hh
    rw [hh, ht1len]
  have hrs : runStrategy env (taskRunning task) (pipelineStartWorld task w) =
      _parallel env (taskRunning task) (pipelineStartWorld task w) := by
    unfold runStrategy
    have hpt0 : (taskRunning task).pipeline_type = PipelineType.parallel := hpt
    rw [hpt0]
  have hpar : _parallel env (taskRunning task) (pipelineStartWorld task w) =
      (t2, w1, Except.ok (String.intercalate "\n\n---\n\n" parts)) := by
    unfold _parallel
    rw [show (taskRunning task).user_input = task.user_input from rfl,
        show (taskRunning task).sub_tasks = task.sub_tasks from rfl]
    rw [hG]
    dsimp only
    rw [hM]
  have hexec : ∃ wf : World, PipelineEngine.execute env task w =
      ({ t2 with status := TaskStatus.completed, total_latency_ms := (w1.now - (pipelineStartWorld task w).now) * 1000 }, wf, String.intercalate "\n\n---\n\n" parts) := by
    apply Exists.intro
    unfold PipelineEngine.execute
    dsimp only
    rw [hrs, hpar]
  obtain ⟨wf, hexec⟩ := hexec
  refine ⟨?_, ?_, ?_, ?_, ?_⟩
  · rw [hexec]
  · rw [hexec]
    dsimp only
    exact ht2len
  · rw [hexec]
    dsimp only
    exact ht2j
  · intro k hk hne
    obtain ⟨st, hst⟩ := hget k hk
    have hst0 : (taskRunning task).sub_tasks.get? k = some st := hst
    rcases gpos k k (hrg k hk) st hst0 with ⟨r, lat, hrk, ht⟩ | ⟨e2, hrk, _⟩
    · refine ⟨st, r, lat, hst, hrk, ?_⟩
      rw [hexec]
      dsimp only
      rw [mout k (hnomem k hne), ht]
    · obtain ⟨r, hr2⟩ := hok k hk hne
      rw [hr2] at hrk
      exact absurd hrk (by simp)
  · refine ⟨parts, ?_, ?_, ?_, ?_⟩
    · rw [mlen, hziplen]
    · have hmp := mparts j j (Except.error e) (hzip j _ hj)
      rw [hmp]
      dsimp only
      rw [hagents j hjlt]
    · intro k hk hne
      obtain ⟨r, hrk⟩ := hok k hk hne
      refine ⟨r, hrk, ?_⟩
      have hmp := mparts k k (Except.ok r) (hzip k _ hrk)
      rw [hmp]
      dsimp only
      rw [hagents k hk]
    · rw [hexec]

/-- Parallel-pipeline fixture: three sub-tasks whose middle agent is the
orchestrator, which `get_agent` cannot resolve. -/
def taskPar : Task :=
  ⟨"q", .parallel, [mkSub "a" .speed 1, mkSub "b" .orchestrator 1, mkSub "c" .reasoner 1], .pending, none, 0, 0⟩

/-- The `KeyError` raised by `get_agent` on the orchestrator role. -/
def kerrOrch : PyErr :=
  ⟨"KeyError", "<AgentRole.ORCHESTRATOR: " ++ sQuote ++ "orchestrator" ++ sQuote ++ ">"⟩

/-- Closed witness for C4 at the three-branch parallel fixture whose middle
branch raises `KeyError`: the run completes the Task while the middle
sub-task is failed. -/
theorem c4_parallel_failure_containment_witness :
    (PipelineEngine.execute envPlain taskPar testWorld).1.status = TaskStatus.completed ∧
    (((PipelineEngine.execute envPlain taskPar testWorld).1.sub_tasks.get? 1).map (fun s => s.status)) = some TaskStatus.failed := by
  have h := c4_parallel_failure_containment envPlain taskPar testWorld 1 kerrOrch _ _ _ rfl rfl rfl
    (by
      intro k hk hne
      rcases k with _ | (_ | (_ | n))
      · exact ⟨"reply0", rfl⟩
      · exact absurd rfl hne
      · exact ⟨"reply1", rfl⟩
      · exfalso
        have h3 : taskPar.sub_tasks.length = 3 := rfl
        omega)
  exact ⟨h.1, h.2.2.1⟩

-- ── C6 ──

/-- C6: the iterative strategy.  (i) Below two sub-tasks it falls back to
the sequential strategy.  (ii) A reviewer reply containing the
case-insensitive token APPROVED stops the round loop immediately: the
current draft is final and the approving review is recorded.  (iii) When
the round budget is exhausted the last draft produced stands, with the last
review.  (iv) A reviewer reply without the token leads to exactly one
refinement by the producer, and the loop continues on the refined draft
with the round counter advanced.  (v) On a completed run the strategy
returns the final draft and stores it in the first sub-task's result field,
while the second sub-task's result field receives the last review. -/
theorem c6_iterative_review_loop :
    (∀ (env : Env) (task : Task) (w : World) (mr : Nat),
      task.sub_tasks.length < 2 → _iterative env task w mr = _sequential env task w) ∧
    (∀ (env : Env) (ui : String) (p r : AgentRole) (fuel round : Nat) (draft : String)
        (prev : Option String) (w w1 : World) (review : String),
      BaseAgent.execute env r (reviewPrompt ui draft round) w = (w1, Except.ok review) →
      strContains (strUpper review) "APPROVED" = true →
      iterGo env ui p r (fuel + 1) round draft prev w = (w1, Except.ok (draft, some review))) ∧
    (∀ (env : Env) (ui : String) (p r : AgentRole) (round : Nat) (draft : String)
        (prev : Option String) (w : World),
      iterGo env ui p r 0 round draft prev w = (w, Except.ok (draft, prev))) ∧
    (∀ (env : Env) (ui : String) (p r : AgentRole) (fuel round : Nat) (draft : String)
        (prev : Option String) (w w1 w2 : World) (review draft2 : String),
      BaseAgent.execute env r (reviewPrompt ui draft round) w = (w1, Except.ok review) →
      strContains (strUpper review) "APPROVED" = false →
      BaseAgent.execute env p (refinePrompt ui draft review) w1 = (w2, Except.ok draft2) →
      iterGo env ui p r (fuel + 1) round draft prev w =
        iterGo env ui p r fuel (round + 1) draft2 (some review) w2) ∧
    (∀ (env : Env) (task : Task) (w : World) (mr : Nat) (producer reviewer : AgentRole)
        (w1 w2 : World) (draft0 draft review : String),
      2 ≤ task.sub_tasks.length →
      get_agent (((task.sub_tasks.get? 0).map (fun s => s.assigned_agent)).getD AgentRole.thinker) = Except.ok producer →
      get_agent (((task.sub_tasks.get? 1).map (fun s => s.assigned_agent)).getD AgentRole.thinker) = Except.ok reviewer →
      BaseAgent.execute env producer ("Original request: " ++ task.user_input ++ "\n\nYour task: " ++ subDescription task 0) w = (w1, Except.ok draft0) →
      iterGo env task.user_input producer reviewer mr 0 draft0 none w1 = (w2, Except.ok (draft, some review)) →
      (_iterative env task w mr).2.2 = Except.ok draft ∧
      ((_iterative env task w mr).1.sub_tasks.get? 0).map (fun s => s.result) = some (some draft) ∧
      ((_iterative env task w mr).1.sub_tasks.get? 1).map (fun s => s.result) = some (some review)) := by
  refine ⟨?_, ?_, ?_, ?_, ?_⟩
  · intro env task w mr hlt
    unfold _iterative
    rw [if_pos hlt]
  · intro env ui p r fuel round draft prev w w1 review hexec happ
    simp only [iterGo]
    rw [hexec]
    dsimp only
    simp [happ]
  · intro env ui p r round draft prev w
    rfl
  · intro env ui p r fuel round draft prev w w1 w2 review draft2 hexec happ href
    simp only [iterGo]
    rw [hexec]
    dsimp only
    simp [happ, href]
  · intro env task w mr producer reviewer w1 w2 draft0 draft review hlen hp hr hdraft hgo
    have hnlt : ¬ task.sub_tasks.length < 2 := by omega
    have hs0 : ∃ s0, task.sub_tasks[0]? = some s0 :=
      ⟨task.sub_tasks.get ⟨0, by omega⟩, List.getElem?_eq_getElem (by omega)⟩
    have hs1 : ∃ s1, task.sub_tasks[1]? = some s1 :=
      ⟨task.sub_tasks.get ⟨1, by omega⟩, List.getElem?_eq_getElem (by omega)⟩
    obtain ⟨s0, hs0⟩ := hs0
    obtain ⟨s1, hs1⟩ := hs1
    have hit : _iterative env task w mr = ({ task with sub_tasks := listUpdate (listUpdate task.sub_tasks 0 (fun s => { s with result := some draft })) 1 (fun s => { s with result := some review }) }, w2, Except.ok draft) := by
      unfold _iterative
      rw [if_neg hnlt, hp, hr]
      dsimp only
      rw [hdraft]
      dsimp only
      rw [hgo]
    refine ⟨?_, ?_, ?_⟩
    · rw [hit]
    · rw [hit]
      dsimp only
      rw [List.get?_eq_getElem?, listUpdate_get?, if_neg (by omega), listUpdate_get?, if_pos rfl, hs0]
      rfl
    · rw [hit]
      dsimp only
      rw [List.get?_eq_getElem?, listUpdate_get?, if_pos rfl, listUpdate_get?, if_neg (by omega), hs1]
      rfl

/-- Single-sub-task iterative fixture (forces the sequential fallback). -/
def taskIterOne : Task :=
  ⟨"one", .iterative, [mkSub "solo" .speed 1], .pending, none, 0, 0⟩

/-- Two-sub-task iterative fixture: speed drafts, reasoner reviews. -/
def taskIter : Task :=
  ⟨"iq", .iterative, [mkSub "p" .speed 1, mkSub "r" .reasoner 1], .pending, none, 0, 0⟩

/-- Environment whose model always answers with an approving review. -/
def envAppr : Env := { envPlain with llm := fun _ => .ok (respOf "APPROVED fine") 5 }

/-- Closed witness for C6: the one-sub-task fixture falls back to
sequential; an approving review stops the loop at once with the draft kept;
fuel exhaustion returns the last draft and review; and the two-sub-task run
under the never-approving environment exhausts its three rounds, returns
the last refined draft and stores draft and review on the two sub-tasks. -/
theorem c6_iterative_review_loop_witness :
    _iterative envPlain taskIterOne testWorld 3 = _sequential envPlain taskIterOne testWorld ∧
    iterGo envAppr "iq" AgentRole.speed AgentRole.reasoner 3 0 "d" none testWorld =
      ((BaseAgent.execute envAppr AgentRole.reasoner (reviewPrompt "iq" "d" 0) testWorld).1, Except.ok ("d", some "APPROVED fine")) ∧
    iterGo envPlain "iq" AgentRole.speed AgentRole.reasoner 0 5 "final" (some "rev") testWorld = (testWorld, Except.ok ("final", some "rev")) ∧
    (_iterative envPlain taskIter testWorld 3).2.2 = Except.ok "reply6" ∧
    ((_iterative envPlain taskIter testWorld 3).1.sub_tasks.get? 0).map (fun s => s.result) = some (some "reply6") ∧
    ((_iterative envPlain taskIter testWorld 3).1.sub_tasks.get? 1).map (fun s => s.result) = some (some "reply5") := by
  have H := c6_iterative_review_loop
  have h5 := H.2.2.2.2 envPlain taskIter testWorld 3 AgentRole.speed AgentRole.reasoner
    (BaseAgent.execute envPlain AgentRole.speed ("Original request: " ++ taskIter.user_input ++ "\n\nYour task: " ++ subDescription taskIter 0) testWorld).1
    (iterGo envPlain taskIter.user_input AgentRole.speed AgentRole.reasoner 3 0 "reply0" none (BaseAgent.execute envPlain AgentRole.speed ("Original request: " ++ taskIter.user_input ++ "\n\nYour task: " ++ subDescription taskIter 0) testWorld).1).1
    "reply0" "reply6" "reply5" (by decide) rfl rfl rfl rfl
  exact ⟨H.1 envPlain taskIterOne testWorld 3 (by decide),
         H.2.1 envAppr "iq" AgentRole.speed AgentRole.reasoner 2 0 "d" none testWorld
           (BaseAgent.execute envAppr AgentRole.reasoner (reviewPrompt "iq" "d" 0) testWorld).1 "APPROVED fine" rfl rfl,
         H.2.2.1 envPlain "iq" AgentRole.speed AgentRole.reasoner 5 "final" (some "rev") testWorld,
         h5.1, h5.2.1, h5.2.2⟩

-- ── C3 toolkit ──

/-- The fields of a `SubTask` that no strategy run ever rewrites. -/
def statFields (s : SubTask) : String × AgentRole × Int × List String :=
  (s.description, s.assigned_agent, s.priority, s.skills)

/-- Agent of the sub-task at an index. -/
def subAgentRole (task : Task) (i : Nat) : AgentRole :=
  ((task.sub_tasks.get? i).map (fun s => s.assigned_agent)).getD .orchestrator

/-- Skill list of the sub-task at an index. -/
def subSkills (task : Task) (i : Nat) : List String :=
  ((task.sub_tasks.get? i).map (fun s => s.skills)).getD []

/-- Expected ghost-call trace of a sequential run: one executor call per
sub-task in execution order, each receiving that sub-task's skill context
followed by the sequential enrichment of the previous sub-task's result
(the initial `prev` for the first). -/
def seqCallTrace (env : Env) (ui : String) (task : Task) :
    List Nat → String → List String → List (AgentRole × String)
  | [], _, _ => []
  | _ :: _, _, [] => []
  | i :: rest, prev, r :: rs =>
    (subAgentRole task i, skillContext env (subSkills task i) ++ seqEnriched ui prev (subDescription task i)) ::
      seqCallTrace env ui task rest r rs

lemma get_agent_ok {role r : AgentRole} (h : get_agent role = Except.ok r) : r = role := by
  cases role <;> simp [get_agent] at h <;> exact h.symm

lemma run_subtask_statics (env : Env) (task : Task) (i : Nat) (ctx : String)
    (w : World) (j : Nat) :
    ((_run_subtask env task i ctx w).1.sub_tasks.get? j).map statFields =
      ((task.sub_tasks.get? j).map statFields) := by
  unfold _run_subtask
  split
  · rfl
  · split
    · dsimp only
      rw [List.get?_eq_getElem?, List.get?_eq_getElem?, listUpdate_get?]
      by_cases hj : j = i
      · subst hj
        cases task.sub_tasks[j]? <;> simp [statFields]
      · simp [hj]
    · dsimp only
      split
      · dsimp only
        rw [List.get?_eq_getElem?, List.get?_eq_getElem?, listUpdate_get?]
        by_cases hj : j = i
        · subst hj
          cases task.sub_tasks[j]? <;> simp [statFields]
        · simp [hj]
      · dsimp only
        rw [List.get?_eq_getElem?, List.get?_eq_getElem?, listUpdate_get?, listUpdate_get?]
        by_cases hj : j = i
        · subst hj
          cases task.sub_tasks[j]? <;> simp [statFields]
        · simp [hj]

lemma statics_components {t1 t2 : Task}
    (h : ∀ j, (t1.sub_tasks.get? j).map statFields = (t2.sub_tasks.get? j).map statFields)
    (j : Nat) :
    subAgentValue t1 j = subAgentValue t2 j ∧ subDescription t1 j = subDescription t2 j ∧
    subSkills t1 j = subSkills t2 j ∧ subAgentRole t1 j = subAgentRole t2 j ∧
    subPriority t1 j = subPriority t2 j := by
  have hj := h j
  unfold subAgentValue subDescription subSkills subAgentRole subPriority
  cases h1 : t1.sub_tasks.get? j <;> cases h2 : t2.sub_tasks.get? j <;> rw [h1, h2] at hj
  · exact ⟨rfl, rfl, rfl, rfl, rfl⟩
  · simp only [Option.map] at hj
    exact Option.noConfusion hj
  · simp only [Option.map] at hj
    exact Option.noConfusion hj
  · simp only [Option.map] at hj
    injection hj with hj
    have hd := congrArg Prod.fst hj
    have ha := congrArg (fun p => p.2.1) hj
    have hp := congrArg (fun p => p.2.2.1) hj
    have hk := congrArg (fun p => p.2.2.2) hj
    simp only [statFields] at hd ha hp hk
    simp [hd, ha, hp, hk]

lemma run_subtask_calls_ok (env : Env) (task : Task) (i : Nat) (ctx : String)
    (w : World) (t1 : Task) (w1 : World) (st : SubTask) (r : String)
    (hst : task.sub_tasks.get? i = some st)
    (h : _run_subtask env task i ctx w = (t1, w1, Except.ok r)) :
    w1.calls = w.calls ++ [(st.assigned_agent, skillContext env st.skills ++ ctx)] := by
  unfold _run_subtask at h
  rw [hst] at h
  dsimp only at h
  split at h
  · simp at h
  · rename_i agentRole hga
    split at h
    · simp at h
    · rename_i w2 res heq
      simp only [Prod.mk.injEq] at h
      obtain ⟨ht, hw, hr⟩ := h
      subst hw
      have hc := execute_calls_pair heq
      rw [hc, addEvent_calls]
      rw [get_agent_ok hga]

lemma zipWith_congr_left {α β γ : Type} (f g : α → β → γ) :
    ∀ (l1 : List α) (l2 : List β), (∀ a ∈ l1, ∀ b, f a b = g a b) →
    List.zipWith f l1 l2 = List.zipWith g l1 l2 := by
  intro l1
  induction l1 with
  | nil => intro l2 _; rfl
  | cons a l1 ih =>
    intro l2 hfg
    cases l2 with
    | nil => rfl
    | cons b l2 =>
      simp only [List.zipWith]
      rw [hfg a (by simp) b, ih l2 (fun a2 ha2 b2 => hfg a2 (by simp [ha2]) b2)]

lemma seqCallTrace_congr (env : Env) (ui : String) {t1 t2 : Task}
    (h : ∀ j, (t1.sub_tasks.get? j).map statFields = (t2.sub_tasks.get? j).map statFields) :
    ∀ (order : List Nat) (prev : String) (rs : List String),
    seqCallTrace env ui t1 order prev rs = seqCallTrace env ui t2 order prev rs := by
  intro order
  induction order with
  | nil => intro prev rs; rfl
  | cons i rest ih =>
    intro prev rs
    cases rs with
    | nil => rfl
    | cons r rs =>
      simp only [seqCallTrace]
      obtain ⟨_, hdesc, hsk, hrole, _⟩ := statics_components h i
      rw [hdesc, hsk, hrole, ih r rs]

lemma insertIdxBy_perm (key : Nat → Int) (i : Nat) :
    ∀ l : List Nat, (insertIdxBy key i l).Perm (i :: l) := by
  intro l
  induction l with
  | nil => exact List.Perm.refl _
  | cons j js ih =>
    unfold insertIdxBy
    by_cases h : key j ≤ key i
    · rw [if_pos h]
      exact List.Perm.trans (List.Perm.cons j ih) (List.Perm.swap i j js)
    · rw [if_neg h]

lemma foldl_insert_perm (key : Nat → Int) :
    ∀ (l : List Nat) (acc : List Nat),
    (l.foldl (fun acc i => insertIdxBy key i acc) acc).Perm (acc ++ l) := by
  intro l
  induction l with
  | nil => intro acc; simp
  | cons i l ih =>
    intro acc
    simp only [List.foldl_cons]
    refine List.Perm.trans (ih (insertIdxBy key i acc)) ?_
    refine List.Perm.trans (List.Perm.append_right l (insertIdxBy_perm key i acc)) ?_
    exact List.Perm.symm List.perm_middle

lemma sortIndicesBy_perm (key : Nat → Int) (n : Nat) :
    (sortIndicesBy key n).Perm (List.range n) := by
  unfold sortIndicesBy
  have := foldl_insert_perm key (List.range n) []
  simpa using this

lemma insertIdxBy_pairwise (key : Nat → Int) (i : Nat) :
    ∀ l : List Nat, List.Pairwise (fun a b => key a ≤ key b) l →
    List.Pairwise (fun a b => key a ≤ key b) (insertIdxBy key i l) := by
  intro l
  induction l with
  | nil =>
    intro _
    unfold insertIdxBy
    simp
  | cons j js ih =>
    intro hp
    obtain ⟨hj, hjs⟩ := List.pairwise_cons.mp hp
    unfold insertIdxBy
    by_cases h : key j ≤ key i
    · rw [if_pos h]
      rw [List.pairwise_cons]
      constructor
      · intro b hb
        rcases List.mem_cons.mp ((insertIdxBy_perm key i js).mem_iff.mp hb) with hbi | hbjs
        · rw [hbi]
          exact h
        · exact hj b hbjs
      · exact ih hjs
    · rw [if_neg h]
      rw [List.pairwise_cons]
      refine ⟨?_, hp⟩
      intro b hb
      rcases List.mem_cons.mp hb with hbj | hbjs
      · rw [hbj]
        exact le_of_lt (not_le.mp h)
      · exact le_trans (le_of_lt (not_le.mp h)) (hj b hbjs)

lemma foldl_insert_pairwise (key : Nat → Int) :
    ∀ (l : List Nat) (acc : List Nat),
    List.Pairwise (fun a b => key a ≤ key b) acc →
    List.Pairwise (fun a b => key a ≤ key b) (l.foldl (fun acc i => insertIdxBy key i acc) acc) := by
  intro l
  induction l with
  | nil => intro acc h; exact h
  | cons i l ih =>
    intro acc h
    simp only [List.foldl_cons]
    exact ih (insertIdxBy key i acc) (insertIdxBy_pairwise key i acc h)

lemma sortIndicesBy_sorted (key : Nat → Int) (n : Nat) :
    List.Pairwise (fun a b => key a ≤ key b) (sortIndicesBy key n) := by
  unfold sortIndicesBy
  exact foldl_insert_pairwise key (List.range n) [] (by simp)

lemma seqGo_ok_trace (env : Env) (ui : String) :
    ∀ (order : List Nat) (ctx : String) (acc : List String) (task : Task) (w : World)
      (t1 : Task) (w1 : World) (results : List String),
    seqGo env ui order ctx acc task w = (t1, w1, Except.ok results) →
    ∃ rs : List String,
      rs.length = order.length ∧
      results = acc ++ List.zipWith (fun i r => "[" ++ subAgentValue task i ++ "] " ++ r) order rs ∧
      w1.calls = w.calls ++ seqCallTrace env ui task order ctx rs ∧
      (∀ j, (t1.sub_tasks.get? j).map statFields = (task.sub_tasks.get? j).map statFields) := by
  intro order
  induction order with
  | nil =>
    intro ctx acc task w t1 w1 results h
    simp only [seqGo, Prod.mk.injEq, Except.ok.injEq] at h
    obtain ⟨ht, hw, hr⟩ := h
    subst ht
    subst hw
    subst hr
    refine ⟨[], rfl, by simp, by simp [seqCallTrace], fun j => rfl⟩
  | cons i rest ih =>
    intro ctx acc task w t1 w1 results h
    simp only [seqGo] at h
    rcases hrun : _run_subtask env task i (seqEnriched ui ctx (subDescription task i)) w with ⟨ta, wa, ra⟩
    rw [hrun] at h
    cases ra with
    | error e => simp at h
    | ok result =>
      dsimp only at h
      have hstex : ∃ st, task.sub_tasks.get? i = some st := by
        rcases hst : task.sub_tasks.get? i with _ | st
        · exfalso
          unfold _run_subtask at hrun
          rw [hst] at hrun
          simp at hrun
        · exact ⟨st, rfl⟩
      obtain ⟨st, hst⟩ := hstex
      have hcalls := run_subtask_calls_ok env task i (seqEnriched ui ctx (subDescription task i)) w ta wa st result hst hrun
      have hstati : ∀ j, (ta.sub_tasks.get? j).map statFields = (task.sub_tasks.get? j).map statFields := by
        intro j
        have hh := run_subtask_statics env task i (seqEnriched ui ctx (subDescription task i)) w j
        rw [hrun] at hh
        exact hh
      obtain ⟨rs, hlen, hres, hcl, hstat2⟩ := ih result (acc ++ ["[" ++ subAgentValue ta i ++ "] " ++ result]) ta wa t1 w1 results h
      refine ⟨result :: rs, by simp [hlen], ?_, ?_, ?_⟩
      · rw [hres]
        simp only [List.zipWith]
        rw [(statics_components hstati i).1]
        rw [zipWith_congr_left _ (fun i2 r => "[" ++ subAgentValue task i2 ++ "] " ++ r) rest rs (fun a _ b => by rw [(statics_components hstati a).1])]
        simp
      · rw [hcl, hcalls]
        simp only [seqCallTrace]
        rw [List.append_assoc]
        congr 1
        rw [seqCallTrace_congr env ui hstati rest result rs]
        rw [List.singleton_append]
        unfold subAgentRole subSkills
        rw [hst]
        rfl
      · intro j
        rw [hstat2 j, hstati j]

-- ── C3 ──

/-- C3: the sequential strategy executes the sub-tasks in the stable
ascending-priority index order (a permutation of all declared sub-task
indices, pairwise non-decreasing in priority).  On a successful run there
is one result per executed sub-task; the ghost call trace shows each
sub-task's agent invoked exactly once, in that order, with a context
enriching the previous sub-task's result (the raw user input for the
first, by `seqCallTrace`); and the returned text joins each sub-task's
agent-labeled result with the separator, in execution order. -/
theorem c3_sequential_priority_and_context
    (env : Env) (task : Task) (w : World) (t1 : Task) (w1 : World) (out : String)
    (hrun : _sequential env task w = (t1, w1, Except.ok out)) :
    ∃ rs : List String,
      rs.length = (sortIndicesBy (subPriority task) task.sub_tasks.length).length ∧
      (sortIndicesBy (subPriority task) task.sub_tasks.length).Perm (List.range task.sub_tasks.length) ∧
      List.Pairwise (fun a b => subPriority task a ≤ subPriority task b) (sortIndicesBy (subPriority task) task.sub_tasks.length) ∧
      out = String.intercalate "\n\n---\n\n" (List.zipWith (fun i r => "[" ++ subAgentValue task i ++ "] " ++ r) (sortIndicesBy (subPriority task) task.sub_tasks.length) rs) ∧
      w1.calls = w.calls ++ seqCallTrace env task.user_input task (sortIndicesBy (subPriority task) task.sub_tasks.length) task.user_input rs := by
  unfold _sequential at hrun
  dsimp only at hrun
  rcases hsg : seqGo env task.user_input (sortIndicesBy (subPriority task) task.sub_tasks.length) task.user_input [] task w with ⟨tx, wx, rx⟩
  rw [hsg] at hrun
  cases rx with
  | error e => simp at hrun
  | ok results =>
    dsimp only at hrun
    simp only [Prod.mk.injEq, Except.ok.injEq] at hrun
    obtain ⟨htx, hwx, hout⟩ := hrun
    subst htx
    subst hwx
    subst hout
    obtain ⟨rs, hlen, hres, hcalls, _⟩ := seqGo_ok_trace env task.user_input _ _ _ _ _ _ _ _ hsg
    refine ⟨rs, hlen, sortIndicesBy_perm _ _, sortIndicesBy_sorted _ _, ?_, hcalls⟩
    rw [hres]
    simp

/-- Sequential fixture with deliberately unsorted priorities: declaration
order reasoner(3), speed(1), thinker(2) must execute as speed, thinker,
reasoner. -/
def taskSeq : Task :=
  ⟨"sq", .sequential, [mkSub "c" .reasoner 3, mkSub "a" .speed 1, mkSub "b" .thinker 2], .pending, none, 0, 0⟩

/-- Closed witness for C3 at the unsorted-priority fixture: the run
succeeds with the three labeled results in ascending-priority order. -/
theorem c3_sequential_priority_and_context_witness :
    ∃ rs : List String,
      rs.length = (sortIndicesBy (subPriority taskSeq) taskSeq.sub_tasks.length).length ∧
      (sortIndicesBy (subPriority taskSeq) taskSeq.sub_tasks.length).Perm (List.range taskSeq.sub_tasks.length) ∧
      List.Pairwise (fun a b => subPriority taskSeq a ≤ subPriority taskSeq b) (sortIndicesBy (subPriority taskSeq) taskSeq.sub_tasks.length) ∧
      "[speed] reply0\n\n---\n\n[thinker] reply1\n\n---\n\n[reasoner] reply2" = String.intercalate "\n\n---\n\n" (List.zipWith (fun i r => "[" ++ subAgentValue taskSeq i ++ "] " ++ r) (sortIndicesBy (subPriority taskSeq) taskSeq.sub_tasks.length) rs) ∧
      (_sequential envPlain taskSeq testWorld).2.1.calls = testWorld.calls ++ seqCallTrace envPlain taskSeq.user_input taskSeq (sortIndicesBy (subPriority taskSeq) taskSeq.sub_tasks.length) taskSeq.user_input rs :=
  c3_sequential_priority_and_context envPlain taskSeq testWorld
    (_sequential envPlain taskSeq testWorld).1 (_sequential envPlain taskSeq testWorld).2.1
    "[speed] reply0\n\n---\n\n[thinker] reply1\n\n---\n\n[reasoner] reply2" rfl

end S222
